import Mathlib

/-!
Verification of the ext2 filesystem implementation (wszxl516/ext2-fs).

Shallow embedding of the core routines of `src/ext2/mod.rs`,
`src/ext2/inode.rs`, `src/ext2/dir.rs` and `src/fs/file.rs` into Lean,
with theorems settling the claims C1..C10 about the spec.

Machine integers are modelled as `Nat` with explicit `% 2^w` at the points
where the Rust code can actually wrap or truncate.  Fallible Rust paths
return `Option`/`Except`; a Rust panic (failed `assert!`, out-of-bounds
index, or a non-terminating loop) is modelled as `Option.none`.
-/

/-- Error type mirroring `src/fs/error.rs` (payload strings dropped). -/
inductive Err where
  | invalidInput
  | notFound
  | ioError
  | unexpectedEof
  | invalidData
  | fileExists
deriving DecidableEq, Repr

/-! ## Block map (`ReadBlockNum`, `src/ext2/inode.rs` lines 362-468), for C1.

The disk is abstracted as `disk : Nat → Nat → Nat`, where `disk b j` is the
little-endian `u32` found at byte offset `4*j` of block `b`
(`get_indirect_block` reads block `indirect_block_num` and decodes the
`u32` at `addr = i * 4`).  The inode's `i_block` array is `iblock : Nat → Nat`
(15 meaningful slots). -/

namespace BlockMap

/-- `EXT2_NDIR_BLOCKS` of `src/ext2/inode.rs`. -/
def EXT2_NDIR_BLOCKS : Nat := 12

/-- Embeds `ReadBlockNum::get_direct_block`: `i_block[i]`. -/
def get_direct_block (iblock : Nat → Nat) (i : Nat) : Nat := iblock i

/-- Embeds `ReadBlockNum::get_indirect_block`: the u32 at slot `i` of block
`indirect_block_num`. -/
def get_indirect_block (disk : Nat → Nat → Nat) (i indirect_block_num : Nat) : Nat :=
  disk indirect_block_num i

/-- Embeds `ReadBlockNum::get_doubly_indirect_block` (`blocks_per_block = P`):
`indirect_block_num_i = i / P`; then looks slot `i - indirect_block_num_i * P`
up in the block found at slot `indirect_block_num_i`. -/
def get_doubly_indirect_block (disk : Nat → Nat → Nat) (P i doubly_num : Nat) : Nat :=
  let indirect_block_num_i := i / P
  let indirect_block_num := get_indirect_block disk indirect_block_num_i doubly_num
  get_indirect_block disk (i - indirect_block_num_i * P) indirect_block_num

/-- Embeds `ReadBlockNum::get_triply_indirect_block`:
`doubly_indirect_block_num_i = i / P / P`, then the doubly-indirect walk on
`i - doubly_indirect_block_num_i * P * P`. -/
def get_triply_indirect_block (disk : Nat → Nat → Nat) (P i triply_num : Nat) : Nat :=
  let doubly_indirect_block_num_i := i / P / P
  let doubly_indirect_block_num :=
    get_indirect_block disk doubly_indirect_block_num_i triply_num
  get_doubly_indirect_block disk P
    (i - doubly_indirect_block_num_i * P * P) doubly_indirect_block_num

/-- Embeds `<ReadBlockNum as Iterator>::next` for logical index `i` (the
iterator's `curr`): `None` once `curr ≥ data_blocks_count`, otherwise the
direct / single / double / triple indirect lookup.  The category bounds are
`first_indirect_block = 12`, `first_doubly_indirect_block = 12 + P`,
`first_triply_indirect_block = 12 + P + P*P` as computed in
`ReadBlockNum::new`. -/
def readBlockNum_next (disk : Nat → Nat → Nat) (iblock : Nat → Nat)
    (P data_blocks_count i : Nat) : Option Nat :=
  if i ≥ data_blocks_count then none
  else if i < EXT2_NDIR_BLOCKS then some (get_direct_block iblock i)
  else if i < EXT2_NDIR_BLOCKS + P then
    some (get_indirect_block disk (i - EXT2_NDIR_BLOCKS) (iblock 12))
  else if i < EXT2_NDIR_BLOCKS + P + P * P then
    some (get_doubly_indirect_block disk P (i - (EXT2_NDIR_BLOCKS + P)) (iblock 13))
  else
    some (get_triply_indirect_block disk P (i - (EXT2_NDIR_BLOCKS + P + P * P)) (iblock 14))

end BlockMap

/-! ## Bitmap allocator (`src/ext2/mod.rs` lines 265-477), for C2 and C4.

A bitmap block is a `List Nat` of byte values (each `< 256`).  The scan in
`alloc_block_group` / `alloc_inode_num_group` runs `for i in 0..block_size`
over the bitmap's bytes; the states below carry the bitmap as a list whose
length is the block size, so the scan is over the whole list. -/

namespace Alloc

/-- Embeds the inner `while chunk & 1 != 0 { chunk >>= 1; bnum += 1 }` loop:
the number of trailing one-bits of a byte.  The loop is only entered for
`chunk ≠ 255`, so at most 7 iterations happen; fuel 8 is exact for any
byte value `< 255`. -/
def trailingOnes : Nat → Nat → Nat
  | 0, _ => 0
  | fuel + 1, c => if c % 2 = 1 then trailingOnes fuel (c / 2) + 1 else 0

/-- Embeds the `for i in 0..block_size` scan: the first byte that is not
`0xFF`, returned together with its index.  `none` models the case where
every byte equals `0xFF` (the function returns `None`). -/
def findNonFull : List Nat → Option (Nat × Nat)
  | [] => none
  | b :: rest =>
    if b ≠ 255 then some (0, b)
    else
      match findNonFull rest with
      | none => none
      | some (i, c) => some (i + 1, c)

/-- Embeds `Ext2Filesystem::bitmap_set_bit` with `set = true`:
`index = (bnum-1)/8`, `bit_n = (bnum-1)%8`, `c |= 1 << bit_n`. -/
def bitmap_set_bit (bitmap : List Nat) (bnum : Nat) : List Nat :=
  let index := (bnum - 1) / 8
  let bitN := (bnum - 1) % 8
  bitmap.set index (bitmap.getD index 0 ||| (1 <<< bitN))

/-- Embeds the `set_group_free` update of one `u16` free counter by `-1`:
the counter is only moved when it is nonzero (`if bg_free_blocks_count != 0`),
and for a nonzero `u16` the `as i64`/`as u16` round trip of `c - 1` is
`c - 1`. -/
def group_free_dec (c : Nat) : Nat := if c ≠ 0 then c - 1 else c

/-- Embeds the `set_sb_free` update of one `u32` superblock counter by `-1`:
`(c as i64 + (-1)) as u32`, which wraps at zero. -/
def sb_free_dec (c : Nat) : Nat := if c = 0 then 2 ^ 32 - 1 else c - 1

/-- State touched by `alloc_block_group` for one block group: the group's
block bitmap block, the group descriptor's `bg_free_blocks_count` and the
superblock's `s_free_blocks_count`. -/
structure BlockAllocState where
  bitmap : List Nat
  bgFreeBlocks : Nat
  sbFreeBlocks : Nat
deriving DecidableEq, Repr

/-- Embeds `Ext2Filesystem::alloc_block_group`: scan the bitmap for the
first non-`0xFF` byte, take its lowest clear bit, form the local one-based
ordinal `bnum = 8*i + trailing_ones + 1`, set the bit, write the bitmap
back, decrement the group's free-block counter (guarded by `!= 0`) and the
superblock's free-block counter.  Returns the allocated ordinal and the new
state; `(none, s)` when the bitmap is full. -/
def alloc_block_group (s : BlockAllocState) : Option Nat × BlockAllocState :=
  match findNonFull s.bitmap with
  | none => (none, s)
  | some (i, c) =>
    let bnum := 8 * i + trailingOnes 8 c + 1
    (some bnum,
      { bitmap := bitmap_set_bit s.bitmap bnum
        bgFreeBlocks := group_free_dec s.bgFreeBlocks
        sbFreeBlocks := sb_free_dec s.sbFreeBlocks })

/-- State touched by `alloc_inode_num` across the block groups: the disk
content of each group's inode-bitmap block, each group descriptor's
`bg_free_inodes_count`, and the superblock's `s_free_inodes_count`. -/
structure InodeAllocState where
  inodesPerGroup : Nat
  groupCount : Nat
  inodeBitmaps : List (List Nat)
  bgFreeInodes : List Nat
  sbFreeInodes : Nat
deriving DecidableEq, Repr

/-- Embeds `Ext2Filesystem::alloc_inode_num_group` for group `groupNum`.
The scan starts at byte 1 with `inum = 8` (the comment `reserved inode
1~10` in the source; byte 0 covers inodes 1..8), so a stop at dropped-list
index `j` (byte `j+1`) yields `inum = 8*(j+1) + trailing_ones + 1`.  The
crucial write-back, `set_inode_bitmap(inum, &bitmap)`, locates the target
group through `get_inode_group(inum)`, i.e. group `(inum - 1) /
inodes_per_group` — the group the *local* ordinal `inum` belongs to, not
`groupNum`.  The free-counter updates go to `groupNum`'s descriptor and the
superblock. -/
def alloc_inode_num_group (s : InodeAllocState) (groupNum : Nat) :
    Option Nat × InodeAllocState :=
  let bitmap := s.inodeBitmaps.getD groupNum []
  match findNonFull (bitmap.drop 1) with
  | none => (none, s)
  | some (j, c) =>
    let inum := 8 * (j + 1) + trailingOnes 8 c + 1
    let writeGroup := (inum - 1) / s.inodesPerGroup
    (some inum,
      { s with
        inodeBitmaps := s.inodeBitmaps.set writeGroup (bitmap_set_bit bitmap inum)
        bgFreeInodes := s.bgFreeInodes.set groupNum
          (group_free_dec (s.bgFreeInodes.getD groupNum 0))
        sbFreeInodes := sb_free_dec s.sbFreeInodes })

/-- Embeds the group loop of `Ext2Filesystem::alloc_inode_num`
(`for i in 0..groups_count`), tried from group `g` with `n` groups left. -/
def alloc_inode_from (s : InodeAllocState) (g : Nat) : Nat → Option Nat × InodeAllocState
  | 0 => (none, s)
  | n + 1 =>
    match alloc_inode_num_group s g with
    | (some inum, s1) => (some inum, s1)
    | (none, s1) => alloc_inode_from s1 (g + 1) n

/-- Embeds `Ext2Filesystem::alloc_inode_num`: first group in `0..groups_count`
that yields an inode. -/
def alloc_inode_num (s : InodeAllocState) : Option Nat × InodeAllocState :=
  alloc_inode_from s 0 s.groupCount

/-- Byte `j` of a bitmap whose first `m` bits are set and the rest clear
(LSB-first within each byte). -/
def byteOf (m j : Nat) : Nat :=
  if 8 * (j + 1) ≤ m then 255 else if m ≤ 8 * j then 0 else 2 ^ (m - 8 * j) - 1

/-- A `len`-byte bitmap whose first `m` bits are set and the rest clear:
the shape a freshly made filesystem's bitmap has (the reserved objects are
a prefix). -/
def filledBitmap (m len : Nat) : List Nat := (List.range len).map (byteOf m)

/-- Iterated single-group inode allocation: the state after `k` calls of
`alloc_inode_num`. -/
def iterInodeAlloc (s : InodeAllocState) : Nat → InodeAllocState
  | 0 => s
  | k + 1 => (alloc_inode_num (iterInodeAlloc s k)).2

/-- Iterated block allocation on one group: the state after `k` calls of
`alloc_block_group`. -/
def iterBlockAlloc (s : BlockAllocState) : Nat → BlockAllocState
  | 0 => s
  | k + 1 => (alloc_block_group (iterBlockAlloc s k)).2

/-- Bit `j` (0-based, LSB-first) of a bitmap given as a byte list. -/
def bitmapBit (bitmap : List Nat) (j : Nat) : Bool :=
  Nat.testBit (bitmap.getD (j / 8) 0) (j % 8)

end Alloc

/-! ## Directory records (`src/ext2/dir.rs`, `src/ext2/inode.rs` lines
262-318, `src/ext2/mod.rs` lines 174-228), for C3 and C9.

A directory block is a `List Nat` of byte values.  Reading past the list
yields the default `0`; the theorems about these functions carry explicit
in-bounds hypotheses, so the defaults never matter where a claim is
settled. -/

namespace Dir

/-- Little-endian `u16` at byte offset `off`. -/
def leU16 (l : List Nat) (off : Nat) : Nat :=
  l.getD off 0 + 256 * l.getD (off + 1) 0

/-- Little-endian `u32` at byte offset `off`. -/
def leU32 (l : List Nat) (off : Nat) : Nat :=
  l.getD off 0 + 256 * l.getD (off + 1) 0 + 256 ^ 2 * l.getD (off + 2) 0 +
    256 ^ 3 * l.getD (off + 3) 0

/-- Mirrors `Ext2DirEntryStruct` of `src/ext2/dir.rs`: the fixed 8-byte
record header `{inode_num : u32, rec_len : u16, name_len : u8,
file_type : u8}`. -/
structure Ext2DirEntryStruct where
  inode_num : Nat
  rec_len : Nat
  name_len : Nat
  file_type : Nat
deriving DecidableEq, Repr

/-- Embeds `read_struct::<Ext2DirEntryStruct>` on `buffer[offset..]`: decode
the 8 header bytes at `off`. -/
def readDirEntryStruct (l : List Nat) (off : Nat) : Ext2DirEntryStruct :=
  { inode_num := leU32 l off
    rec_len := leU16 l (off + 4)
    name_len := l.getD (off + 6) 0
    file_type := l.getD (off + 7) 0 }

/-- Embeds `to_slice!(&entry, Ext2DirEntryStruct)`: the 8 little-endian
bytes of a header. -/
def dirEntryBytes (e : Ext2DirEntryStruct) : List Nat :=
  [e.inode_num % 256, e.inode_num / 256 % 256, e.inode_num / 256 ^ 2 % 256,
   e.inode_num / 256 ^ 3 % 256, e.rec_len % 256, e.rec_len / 256 % 256,
   e.name_len % 256, e.file_type % 256]

/-- Embeds a `write_at` of `bytes` into a block buffer at byte offset
`off`, one byte at a time (an out-of-range `List.set` is the identity; the
theorems keep every write in range). -/
def writeBytes : List Nat → Nat → List Nat → List Nat
  | l, _, [] => l
  | l, off, b :: rest => writeBytes (l.set off b) (off + 1) rest

/-- Embeds the `align_up!(len, 4)` macro of `src/lib.rs`:
`(len + 3) & !3`, written arithmetically. -/
def align_up4 (n : Nat) : Nat := (n + 3) / 4 * 4

/-- Embeds the block-local loop of `Ext2Inode::find_last_dir_entry`:
starting at `off`, parse the header, compute
`entry_size = align_up!(name_len + 8, 4)`, stop at the first record with
`entry_size < rec_len || inode_num == 0` and return its offset; keep
adding `rec_len` otherwise.  `none` models both leaving the block
(`offset ≥ block_size`: the source moves to the next block) and a
non-terminating walk (`rec_len = 0`), which the fuel cuts off. -/
def find_last_dir_entry (block : List Nat) (blockSize : Nat) :
    Nat → Nat → Option Nat
  | 0, _ => none
  | fuel + 1, off =>
    if off < blockSize then
      let e := readDirEntryStruct block off
      let entrySize := align_up4 (e.name_len + 8)
      if entrySize < e.rec_len ∨ e.inode_num = 0 then some off
      else find_last_dir_entry block blockSize fuel (off + e.rec_len)
    else none

/-- The record walk of a directory block: starting from `off`, keep adding
the current record's `rec_len` while `off < blockSize`, and return the
first offset `≥ blockSize` reached.  `walkEnd block bs fuel 0 = some bs`
states exactly the P3 invariant: the record lengths tile the block
(`Σ rec_len = block_size`, the final record ending exactly at the end of
the block). -/
def walkEnd (block : List Nat) (blockSize : Nat) : Nat → Nat → Option Nat
  | 0, _ => none
  | fuel + 1, off =>
    if off < blockSize then
      walkEnd block blockSize fuel (off + (readDirEntryStruct block off).rec_len)
    else some off

/-- Decidable record-chain certificate: `chainTo block fuel o target` holds
when a walk of record headers starting at `o`, each with `rec_len ≥ 8`,
reaches exactly `target`.  Used as the well-formedness hypothesis tying the
offset that `find_last_dir_entry` returns to the start of the block. -/
def chainTo (block : List Nat) : Nat → Nat → Nat → Bool
  | 0, o, target => o = target
  | fuel + 1, o, target =>
    o = target ||
      (8 ≤ (readDirEntryStruct block o).rec_len &&
        chainTo block fuel (o + (readDirEntryStruct block o).rec_len) target)

/-- Embeds the block-splicing tail of `Ext2Filesystem::new_dir_entry` (after
`find_last_dir_entry` returned offset `off` in block `block`): the located
record is rewritten with `rec_len = align_up!(8 + name_len, 4)`, a new
header with `inode_num = newInum`, `rec_len = block_size - off - pack`,
`name_len = name.len()` and the given `file_type` is written at
`off + pack`, and the new name's bytes follow at `off + pack + 8`. -/
def new_dir_entry_block (block : List Nat) (blockSize off newInum fileType : Nat)
    (name : List Nat) : List Nat :=
  let e := readDirEntryStruct block off
  let pack := align_up4 (8 + e.name_len)
  let newEntry : Ext2DirEntryStruct :=
    { inode_num := newInum
      rec_len := blockSize - off - pack
      name_len := name.length
      file_type := fileType }
  let w1 := writeBytes block off (dirEntryBytes { e with rec_len := pack })
  let w2 := writeBytes w1 (off + pack) (dirEntryBytes newEntry)
  writeBytes w2 (off + pack + 8) name

/-- Modelled from the spec: the slack-record locator as §4.6 of the spec
words it — scan records and stop at *the first record whose packed size
`pack = align_up(8 + name_len, 4)` is strictly less than its `rec_len`*
(no provision for free records with `inode_num = 0`).  Kept only to compare
with `find_last_dir_entry` above. -/
def findSlackSpec (block : List Nat) (blockSize : Nat) : Nat → Nat → Option Nat
  | 0, _ => none
  | fuel + 1, off =>
    if off < blockSize then
      let e := readDirEntryStruct block off
      if align_up4 (8 + e.name_len) < e.rec_len then some off
      else findSlackSpec block blockSize fuel (off + e.rec_len)
    else none

/-- A produced directory entry: the name bytes and the inode number. -/
structure DirEnt where
  name : List Nat
  inodeNum : Nat
deriving DecidableEq, Repr

/-- Embeds the block-local loop of `Ext2Inode::read_dir` together with
`Ext2DirEntry::new` and `Ext2DirEntry::get_inode`.  At each offset below
`blockSize` the 8-byte header is parsed and the `name_len` name bytes are
read (`Ext2DirEntry::new` does both unconditionally); then
`dir_entry.get_inode(fs)?` fetches the entry's inode and propagates its
failure.  `inodeOk n` abstracts whether `fs.read_inode(n)` succeeds; for
`n = 0` it never does: `read_inode(0)` computes the group as
`(0 - 1) / inodes_per_group` on `u64`, so the descriptor read happens at an
offset far past the device and fails (in a debug build the subtraction
itself panics).  `none` models a non-terminating walk (`rec_len = 0`). -/
def read_dir_block (inodeOk : Nat → Bool) (block : List Nat) (blockSize : Nat) :
    Nat → Nat → Option (Except Err (List DirEnt))
  | 0, _ => none
  | fuel + 1, off =>
    if off < blockSize then
      let e := readDirEntryStruct block off
      let name := (block.drop (off + 8)).take e.name_len
      if inodeOk e.inode_num then
        match read_dir_block inodeOk block blockSize fuel (off + e.rec_len) with
        | none => none
        | some (Except.error er) => some (Except.error er)
        | some (Except.ok rest) =>
          some (Except.ok ({ name := name, inodeNum := e.inode_num } :: rest))
      else some (Except.error Err.unexpectedEof)
    else some (Except.ok [])

/-- Modelled from the spec: the directory iteration of §4.6 — read the
8-byte header; *if `inode_num == 0` skip (free slot)* without producing an
entry or reading its name; otherwise read `name_len` name bytes; advance by
`rec_len`; stop at `block_size`.  Kept only to compare with
`read_dir_block` above. -/
def readDirBlockSpec (block : List Nat) (blockSize : Nat) :
    Nat → Nat → Option (List DirEnt)
  | 0, _ => none
  | fuel + 1, off =>
    if off < blockSize then
      let e := readDirEntryStruct block off
      if e.inode_num = 0 then readDirBlockSpec block blockSize fuel (off + e.rec_len)
      else
        match readDirBlockSpec block blockSize fuel (off + e.rec_len) with
        | none => none
        | some rest =>
          some ({ name := (block.drop (off + 8)).take e.name_len,
                  inodeNum := e.inode_num } :: rest)
    else some []

end Dir

/-! ## File handle (`src/fs/file.rs`), for C7, C8 and C10.

`FsFile` state: the cached inode fields the read/write paths touch, the
handle's resolved physical block list, and the cursor.  `alloc_supply`
models the successive `Some` results of `fs.alloc_block()` (an empty supply
models `None`).  The disk writes always succeed and return the buffer
length, as `Disk::write_at` does on the in-scope backends; a Rust panic
(the `assert!` in `write_block`, an out-of-bounds `self.blocks[i]` index,
or an out-of-bounds slice in `read`) is `Option.none`. -/

namespace FileH

/-- The slice of `FsFile` (plus its cached `Ext2Inode`) that `read`/`write`
use: cursor `pos`, `block_size`, the inode's `i_block`, `i_blocks`,
`i_size` (u32) and computed `size`/`data_blocks_count`, the resolved block
list, and the allocator supply. -/
structure FileState where
  blockSize : Nat
  iblock : List Nat
  iBlocksCnt : Nat
  iSize : Nat
  size : Nat
  dataBlocksCount : Nat
  blocks : List Nat
  pos : Nat
  allocSupply : List Nat
deriving DecidableEq, Repr

/-- Embeds `FsFile::write_block`.  The `assert!(file_block_num <
EXT2_NDIR_BLOCKS)` failure is `none`.  When the direct slot is `0`, a
successful `alloc_block` appends the new block to the handle's list, sets
the slot, bumps `i_blocks` and `data_blocks_count` and persists the inode
(the inode-table write has no observable field here); a `None` from the
allocator silently does nothing, as in the source.  The data write targets
`self.blocks[file_block_num]` — an out-of-range index is `none` — and
returns the written byte count. -/
def write_block (s : FileState) (fileBlockNum offset : Nat) (buffer : List Nat) :
    Option (FileState × Nat) :=
  if fileBlockNum < 12 then
    let s1 :=
      if s.iblock.getD fileBlockNum 0 = 0 then
        match s.allocSupply with
        | [] => s
        | nb :: rest =>
          { s with
            blocks := s.blocks ++ [nb]
            iblock := s.iblock.set fileBlockNum nb
            iBlocksCnt := s.iBlocksCnt + 1
            dataBlocksCount := s.dataBlocksCount + 1
            allocSupply := rest }
      else s
    match s1.blocks.get? fileBlockNum with
    | none => none
    | some _ => some (s1, buffer.length)
  else none

/-- Embeds the `loop` of `FsFile::write`: split off at most one block-size
piece, compute `blk_num = pos / block_size` and `blk_pos = pos %
block_size`, call `write_block`, advance the cursor, and stop when the
written total reaches the input length.  Structured with fuel; `fuel =
buf.len() + 1` always suffices. -/
def fileWriteGo (total : Nat) : Nat → FileState → List Nat → Nat →
    Option (Except Err (FileState × Nat))
  | 0, _, _, _ => none
  | fuel + 1, s, buffer, written =>
    let writeBuf := buffer.take s.blockSize
    let rest := buffer.drop s.blockSize
    match write_block s (s.pos / s.blockSize) (s.pos % s.blockSize) writeBuf with
    | none => none
    | some (s1, n) =>
      let s2 := { s1 with pos := s1.pos + n }
      if written + n = total then some (Except.ok (s2, written + n))
      else fileWriteGo total fuel s2 rest (written + n)

/-- Embeds `FsFile::write`: run the chunk loop, then add the written count
to the inode's `i_size` (a u32, hence mod `2^32`) and to the cached `size`,
and persist the inode. -/
def fileWrite (s : FileState) (buf : List Nat) :
    Option (Except Err (FileState × Nat)) :=
  match fileWriteGo buf.length (buf.length + 1) s buf 0 with
  | none => none
  | some (Except.error e) => some (Except.error e)
  | some (Except.ok (s2, wb)) =>
    some (Except.ok
      ({ s2 with iSize := (s2.iSize + wb) % 2 ^ 32, size := s2.size + wb }, wb))

/-- Embeds `FsFile::how_many_bytes`. -/
def how_many_bytes (s : FileState) (bufferLen : Nat) : Nat :=
  if s.pos + bufferLen > s.size then s.size - s.pos else bufferLen

/-- Embeds `FsFile::read` over a disk `disk : Nat → List Nat` giving each
physical block's `block_size` bytes.  Result: the caller buffer's final
content, the returned count, and the state.  At or past EOF the buffer is
zero-filled and the count is 0.  Otherwise the block containing the cursor
is read (`self.blocks[pos / block_size]`; out of range is a panic, `none`),
`zero_padding` extends it when the byte count is short of the buffer, and
`buf.copy_from_slice(&buffer[block_pos..block_pos + buf.len()])` — a panic,
`none`, when that range overruns the (padded) block — fills the buffer;
the cursor advances by the count. -/
def fileRead (disk : Nat → List Nat) (s : FileState) (bufLen : Nat) :
    Option (List Nat × Nat × FileState) :=
  if s.pos ≥ s.size then
    some (List.replicate bufLen 0, 0, s)
  else
    let readBytes := how_many_bytes s bufLen
    let blockNum := s.pos / s.blockSize
    match s.blocks.get? blockNum with
    | none => none
    | some phys =>
      let buffer := disk phys
      let buffer :=
        if readBytes < bufLen then buffer ++ List.replicate (bufLen - readBytes) 0
        else buffer
      let blockPos := s.pos - blockNum * s.blockSize
      if blockPos + bufLen ≤ buffer.length then
        some ((buffer.drop blockPos).take bufLen, readBytes,
          { s with pos := s.pos + readBytes })
      else none

/-- Mirrors `Mode::FILE` of `src/fs/stat.rs`. -/
def MODE_FILE : Nat := 0x8000

/-- Mirrors `Mode::DIRECTORY` of `src/fs/stat.rs`. -/
def MODE_DIRECTORY : Nat := 0x4000

/-- The fields of `Ext2InodeStruct` that `new_file`/`new_dir` initialise. -/
structure Ext2InodeStructInit where
  i_mode : Nat
  i_links_count : Nat
  i_blocks : Nat
  i_size : Nat
  i_block : List Nat
deriving DecidableEq, Repr

/-- Embeds `Ext2InodeStruct::new_file`: zeroed struct, then
`i_mode = FILE | perm`, `i_links_count = 1`, `i_block[0] = first_block`,
`i_blocks = 2`, `i_size = size`. -/
def new_file_struct (perm firstBlock size : Nat) : Ext2InodeStructInit :=
  { i_mode := MODE_FILE ||| perm
    i_links_count := 1
    i_blocks := 2
    i_size := size
    i_block := (List.replicate 15 0).set 0 firstBlock }

/-- Embeds `Ext2InodeStruct::new_dir` (same shape with the directory mode). -/
def new_dir_struct (perm firstBlock size : Nat) : Ext2InodeStructInit :=
  { i_mode := MODE_DIRECTORY ||| perm
    i_links_count := 1
    i_blocks := 2
    i_size := size
    i_block := (List.replicate 15 0).set 0 firstBlock }

/-- The `FsFile` state a fresh `Ext2Filesystem::new_file` hands out: the
inode built in `new_dir_entry` (`size: block_size`, `data_blocks_count: 1`,
`ext2_inode: Ext2InodeStruct::new_file(perm, new_block_num, block_size)`),
the handle's block list `vec![inode.blocks()[0]]`, and cursor 0. -/
def freshFileState (perm newBlockNum blockSize : Nat) (supply : List Nat) :
    FileState :=
  { blockSize := blockSize
    iblock := (new_file_struct perm newBlockNum blockSize).i_block
    iBlocksCnt := (new_file_struct perm newBlockNum blockSize).i_blocks
    iSize := (new_file_struct perm newBlockNum blockSize).i_size
    size := blockSize
    dataBlocksCount := 1
    blocks := [newBlockNum]
    pos := 0
    allocSupply := supply }

end FileH

/-! ## Path resolver and facade (`src/ext2/mod.rs` lines 59-234), for C5
and C6.

`resolve_relative` walks a path; its collaborators (`read_inode`,
`get_child`, `metadata().is_symlink()`, `read_link`) are abstracted into
`FsView`, a read-only view of the mounted filesystem.  A Rust `&str` path
is modelled as its character list, and `path.split("/")` as the structural
`splitSlash` below.  The Rust function is plainly recursive with no depth
counter; the embedding adds a fuel argument that only bounds the modelled
recursion depth: a result of `none` means the walk has not finished within
that depth. -/

namespace Resolver

/-- Embeds `str::split` with separator `/`: `"" ↦ [""]`, `"/a" ↦ ["", "a"]`,
`"a/" ↦ ["a", ""]`. -/
def splitSlash : List Char → List (List Char)
  | [] => [[]]
  | c :: rest =>
    if c = '/' then [] :: splitSlash rest
    else
      match splitSlash rest with
      | [] => [[c]]
      | p :: ps => (c :: p) :: ps

/-- Embeds `path.starts_with("/")`. -/
def startsWithSlash : List Char → Bool
  | [] => false
  | c :: _ => c = '/'

/-- Read-only view of the filesystem used by `resolve_relative`:
`root` is `EXT2_ROOT_INO = 2`; `getChild i name` is
`inode.get_child(..., name)` on inode `i`; `isSymlink` is
`metadata().is_symlink()`; `readLink` is `inode.read_link(&disk)`. -/
structure FsView where
  root : Nat
  getChild : Nat → List Char → Option Nat
  isSymlink : Nat → Bool
  readLink : Nat → Except Err (List Char)

/-- Embeds the component loop of `Ext2Filesystem::resolve_relative`:
`parts` are the remaining `path.split("/")` components, `i` the current
index, `last = parts.len() - 1`, `ino` the current inode and `fname` the
`file_name` buffer (rewritten to each component, empty ones included).  A
symlink that must be resolved (`is_symlink && (!link || i != last)`)
triggers the recursive `resolve_relative(&target, inode, link)` call on the
*current* inode, whose result replaces `(inode, file_name)` before the loop
continues.  Each step consumes one unit of fuel. -/
def resolveGo (fs : FsView) (link : Bool) :
    Nat → List (List Char) → Nat → Nat → Nat → List Char →
    Option (Except Err (Nat × List Char))
  | 0, _, _, _, _, _ => none
  | _ + 1, [], _, _, ino, fname => some (Except.ok (ino, fname))
  | fuel + 1, part :: rest, i, last, ino, _ =>
    if part = [] then resolveGo fs link fuel rest (i + 1) last ino part
    else
      match fs.getChild ino part with
      | none => some (Except.error Err.notFound)
      | some child =>
        if fs.isSymlink child = true ∧ (link = false ∨ i ≠ last) then
          match fs.readLink child with
          | Except.error e => some (Except.error e)
          | Except.ok target =>
            let startIno := if startsWithSlash target then fs.root else ino
            let parts := splitSlash target
            match resolveGo fs link fuel parts 0 (parts.length - 1) startIno [] with
            | none => none
            | some (Except.error e) => some (Except.error e)
            | some (Except.ok (ino2, fname2)) =>
              resolveGo fs link fuel rest (i + 1) last ino2 fname2
        else resolveGo fs link fuel rest (i + 1) last child part

/-- Embeds `Ext2Filesystem::resolve_relative`: reset to the root inode on
an absolute path, split on `/` and run the component loop. -/
def resolve_relative (fs : FsView) (link : Bool) (fuel : Nat) (path : List Char)
    (ino : Nat) : Option (Except Err (Nat × List Char)) :=
  let startIno := if startsWithSlash path then fs.root else ino
  let parts := splitSlash path
  resolveGo fs link fuel parts 0 (parts.length - 1) startIno []

/-- Embeds `Ext2Filesystem::resolve`: resolve from the root inode with
`link = false`. -/
def resolve (fs : FsView) (fuel : Nat) (path : List Char) :
    Option (Except Err (Nat × List Char)) :=
  resolve_relative fs false fuel path fs.root

/-- A two-symlink cycle: `/a → /b` and `/b → /a` (inodes 10 and 11 hanging
off the root directory, inode 2). -/
def cycFs : FsView :=
  { root := 2
    getChild := fun ino name =>
      if ino = 2 ∧ name = ['a'] then some 10
      else if ino = 2 ∧ name = ['b'] then some 11
      else none
    isSymlink := fun ino => ino = 10 ∨ ino = 11
    readLink := fun ino =>
      if ino = 10 then Except.ok ['/', 'b']
      else if ino = 11 then Except.ok ['/', 'a']
      else Except.error Err.invalidData }

/-- Embeds `Ext2Filesystem::is_exist` over the abstract view:
`resolve(path).is_ok()` at recursion depth `fuel`. -/
def is_exist (fs : FsView) (fuel : Nat) (path : List Char) : Bool :=
  match resolve fs fuel path with
  | some (Except.ok _) => true
  | _ => false

end Resolver

/-! ## Creation facade (`src/ext2/mod.rs` lines 139-234), for C6.

`new_dir_entry` starts with `match self.is_exist(path)`; on `true` it
returns `Err(FileExists)` before touching the device.  The creation branch
(resolving the parent, `find_last_dir_entry`, the two allocations, the
inode write and the three block writes — the block-level splice arithmetic
is embedded in `Dir.new_dir_entry_block`) is abstracted into one
state-transforming collaborator `create`, and `mk_default_dir` into
`mkDefaultDir`, since C6 only constrains the existing-path branch.  The
filesystem state `σ` stands for the mutable `Ext2Filesystem` (superblock
copy plus the device). -/

namespace Facade

/-- The facade over an abstract filesystem state `σ`: `isExist s path`
embeds `Ext2Filesystem::is_exist` (`resolve(path).is_ok()`, a `&self`
read-only call); `create` is the non-existing branch of `new_dir_entry`
returning the new inode number; `mkDefaultDir` is
`Ext2Filesystem::mk_default_dir`. -/
structure FacadeOps (σ : Type) where
  isExist : σ → List Char → Bool
  create : σ → List Char → Nat → Bool → Except Err Nat × σ
  mkDefaultDir : σ → List Char → Except Err Unit × σ

/-- Embeds `Ext2Filesystem::new_dir_entry`: `FileExists` (and no state
change) when the path resolves, the creation branch otherwise. -/
def new_dir_entry (ops : FacadeOps σ) (s : σ) (path : List Char) (perm : Nat)
    (isFile : Bool) : Except Err Nat × σ :=
  if ops.isExist s path then (Except.error Err.fileExists, s)
  else ops.create s path perm isFile

/-- Embeds `Ext2Filesystem::mk_dir`: `new_dir_entry` with `is_file = false`,
then `mk_default_dir`; the `?` propagates a `new_dir_entry` error before
`mk_default_dir` runs. -/
def mk_dir (ops : FacadeOps σ) (s : σ) (path : List Char) (perm : Nat) :
    Except Err Unit × σ :=
  match new_dir_entry ops s path perm false with
  | (Except.error e, s1) => (Except.error e, s1)
  | (Except.ok _, s1) => ops.mkDefaultDir s1 path

/-- Embeds `Ext2Filesystem::new_file`: `new_dir_entry` with
`is_file = true` (the `FsFile::new` wrapper performs no writes). -/
def new_file (ops : FacadeOps σ) (s : σ) (path : List Char) (perm : Nat) :
    Except Err Nat × σ :=
  new_dir_entry ops s path perm true

/-- The state after `n` further `mk_dir(path, perm)` calls. -/
def mkDirIter (ops : FacadeOps σ) (path : List Char) (perm : Nat) (s : σ) :
    Nat → σ
  | 0 => s
  | n + 1 => (mk_dir ops (mkDirIter ops path perm s n) path perm).2

end Facade

/-! ## Concrete fixtures used by the counterexamples and witnesses. -/

namespace Fix

/-- A freshly made single-group filesystem for inode allocation: one group,
its inode bitmap with the first `m` bits set (the reserved inodes), and the
given counters. -/
def freshInodeState (m len ipg bg sb : Nat) : Alloc.InodeAllocState :=
  { inodesPerGroup := ipg
    groupCount := 1
    inodeBitmaps := [Alloc.filledBitmap m len]
    bgFreeInodes := [bg]
    sbFreeInodes := sb }

/-- A fresh block-allocation state: bitmap with the first `m` bits set (the
metadata blocks a fresh image reserves are a prefix). -/
def freshBlockState (m len bg sb : Nat) : Alloc.BlockAllocState :=
  { bitmap := Alloc.filledBitmap m len
    bgFreeBlocks := bg
    sbFreeBlocks := sb }

/-- Two-group state with group 0's inodes exhausted (bitmap all `0xFF`)
and group 1 fully free (bitmap all zero), with consistent counters;
`block_size = 1024`, `inodes_per_group = 8192`. -/
def c2State : Alloc.InodeAllocState :=
  { inodesPerGroup := 8192
    groupCount := 2
    inodeBitmaps := [List.replicate 1024 255, List.replicate 1024 0]
    bgFreeInodes := [0, 8192]
    sbFreeInodes := 8192 }

/-- A 1024-byte directory block with three records: a used record at 0
(`rec_len = 12`), a free record (`inode_num = 0`, `rec_len = 12`) at 12,
and a used slack record at 24 (`rec_len = 1000`, packed size 12). -/
def c3Block : List Nat :=
  Dir.writeBytes (List.replicate 1024 0) 0
    [5, 0, 0, 0, 12, 0, 1, 1, 120, 0, 0, 0,
     0, 0, 0, 0, 12, 0, 1, 1, 121, 0, 0, 0,
     7, 0, 0, 0, 232, 3, 1, 1, 122]

/-- A fresh directory's first 1024-byte block: `.` (inode 2, `rec_len` 12)
then `..` (inode 2, `rec_len` 1012), the shape `mk_default_dir` writes for
the root directory. -/
def dotBlock : List Nat :=
  Dir.writeBytes (List.replicate 1024 0) 0
    [2, 0, 0, 0, 12, 0, 1, 2, 46, 0, 0, 0,
     2, 0, 0, 0, 244, 3, 2, 2, 46, 46]

/-- A 1024-byte directory block whose first record is free
(`inode_num = 0`, `rec_len = 12`) followed by a used record at 12
(`inode 12`, `rec_len = 1012`). -/
def c9Block : List Nat :=
  Dir.writeBytes (List.replicate 1024 0) 0
    [0, 0, 0, 0, 12, 0, 1, 1, 120, 0, 0, 0,
     12, 0, 0, 0, 244, 3, 1, 1, 121]

/-- Which inode numbers `fs.read_inode` can fetch on the fixture image:
any nonzero one (inode 0 underflows the group computation and the
descriptor read fails past the end of the device). -/
def c9InodeOk : Nat → Bool := fun n => n ≠ 0

/-- An open handle on a 12-block (12 KiB) file with the cursor at byte
`12 * 1024`: every direct slot is in use. -/
def c7State : FileH.FileState :=
  { blockSize := 1024
    iblock := (List.range 15).map (fun k => if k < 12 then 100 + k else 0)
    iBlocksCnt := 24
    iSize := 12288
    size := 12288
    dataBlocksCount := 12
    blocks := (List.range 12).map (fun k => 100 + k)
    pos := 12288
    allocSupply := [500] }

/-- Like `c7State` with the cursor one block further (byte `13 * 1024`). -/
def c7State2 : FileH.FileState :=
  { c7State with pos := 13312 }

/-- An open handle on a two-block file of size 2048 with the cursor at
byte 512 (mid-block). -/
def c8State : FileH.FileState :=
  { blockSize := 1024
    iblock := ((List.replicate 15 0).set 0 300).set 1 301
    iBlocksCnt := 4
    iSize := 2048
    size := 2048
    dataBlocksCount := 2
    blocks := [300, 301]
    pos := 512
    allocSupply := [] }

/-- A disk whose every block holds 1024 copies of the byte 7. -/
def c8Disk : Nat → List Nat := fun _ => List.replicate 1024 7

/-- Facade collaborators over `σ = Nat` for the C6 witness: every path
exists, and the (never reached) creation branches bump the state. -/
def c6Ops : Facade.FacadeOps Nat :=
  { isExist := fun _ _ => true
    create := fun s _ _ _ => (Except.ok 12, s + 1)
    mkDefaultDir := fun s _ => (Except.ok (), s + 1) }

end Fix

/-! ## Theorems -/

/-- C1: for every logical block index `i < data_blocks_count` the iterator
`ReadBlockNum::next` returns `i_block[i]` for `i < 12`; slot `i - 12` of
the single-indirect block `i_block[12]` for `12 ≤ i < 12 + P`; for
`12 + P ≤ i < 12 + P + P²` slot `inner` of the indirect block found at slot
`outer` of `i_block[13]` with `outer = (i - 12 - P) / P` and
`inner = (i - 12 - P) % P`; and for larger `i` the analogous three-level
split through `i_block[14]`. -/
theorem C1_block_map (disk : Nat → Nat → Nat) (iblock : Nat → Nat)
    (P dbc i : Nat) (hP : 0 < P) (hi : i < dbc) :
    (i < 12 → BlockMap.readBlockNum_next disk iblock P dbc i = some (iblock i)) ∧
    (12 ≤ i → i < 12 + P →
      BlockMap.readBlockNum_next disk iblock P dbc i =
        some (disk (iblock 12) (i - 12))) ∧
    (12 + P ≤ i → i < 12 + P + P * P →
      BlockMap.readBlockNum_next disk iblock P dbc i =
        some (disk (disk (iblock 13) ((i - 12 - P) / P)) ((i - 12 - P) % P))) ∧
    (12 + P + P * P ≤ i →
      BlockMap.readBlockNum_next disk iblock P dbc i =
        some (disk (disk (disk (iblock 14) ((i - 12 - P - P * P) / (P * P)))
          (((i - 12 - P - P * P) / P) % P)) ((i - 12 - P - P * P) % P))) := by
  have hnot : ¬ i ≥ dbc := Nat.not_le.mpr hi
  refine ⟨fun h => ?_, fun h1 h2 => ?_, fun h1 h2 => ?_, fun h1 => ?_⟩
  · simp [BlockMap.readBlockNum_next, BlockMap.EXT2_NDIR_BLOCKS,
      BlockMap.get_direct_block, hnot, h]
  · have h0 : ¬ i < 12 := by omega
    simp [BlockMap.readBlockNum_next, BlockMap.EXT2_NDIR_BLOCKS,
      BlockMap.get_indirect_block, hnot, h0, h2]
  · have h0 : ¬ i < 12 := by omega
    have h0' : ¬ i < 12 + P := by omega
    simp only [BlockMap.readBlockNum_next, BlockMap.EXT2_NDIR_BLOCKS,
      BlockMap.get_doubly_indirect_block, BlockMap.get_indirect_block]
    rw [if_neg hnot, if_neg h0, if_neg h0', if_pos h2]
    have hj : i - (12 + P) = i - 12 - P := by omega
    rw [hj]
    have hmod : i - 12 - P - (i - 12 - P) / P * P = (i - 12 - P) % P := by
      have h5 := Nat.div_add_mod (i - 12 - P) P
      rw [Nat.mul_comm] at h5
      omega
    rw [hmod]
  · have h0 : ¬ i < 12 := by omega
    have h0' : ¬ i < 12 + P := by omega
    have h0'' : ¬ i < 12 + P + P * P := by omega
    simp only [BlockMap.readBlockNum_next, BlockMap.EXT2_NDIR_BLOCKS,
      BlockMap.get_triply_indirect_block, BlockMap.get_doubly_indirect_block,
      BlockMap.get_indirect_block]
    rw [if_neg hnot, if_neg h0, if_neg h0', if_neg h0'']
    have hj : i - (12 + P + P * P) = i - 12 - P - P * P := by omega
    rw [hj]
    set j := i - 12 - P - P * P
    have hdd : j / P / P = j / (P * P) := Nat.div_div_eq_div_mul j P P
    rw [hdd]
    have h4 : j / (P * P) * P * P = j / (P * P) * (P * P) := by ring
    rw [h4]
    have hsub : j - j / (P * P) * (P * P) = j % (P * P) := by
      have h5 := Nat.div_add_mod j (P * P)
      rw [Nat.mul_comm] at h5
      omega
    rw [hsub]
    have hmod3 : j % (P * P) - j % (P * P) / P * P = j % (P * P) % P := by
      have h6 := Nat.div_add_mod (j % (P * P)) P
      rw [Nat.mul_comm] at h6
      omega
    rw [hmod3, Nat.mod_mul_right_div_self, Nat.mod_mul_right_mod]

/-- Witness for C1: the double-indirect branch evaluated at `P = 256`,
`i = 5000`. -/
theorem C1_block_map_witness :
    BlockMap.readBlockNum_next (fun b j => b * 1000 + j) (fun k => 100 + k)
      256 70000 5000 =
      some ((fun b j => b * 1000 + j)
        ((fun b j => b * 1000 + j) ((fun k => 100 + k) 13) ((5000 - 12 - 256) / 256))
        ((5000 - 12 - 256) % 256)) :=
  (C1_block_map (fun b j => b * 1000 + j) (fun k => 100 + k) 256 70000 5000
    (by decide) (by decide)).2.2.1 (by decide) (by decide)

/-- One unfolding of the resolver on the cycle, `/a` side: two fuel units
(the empty component and the `a` component) reduce the walk to the
recursive resolution of the target `/b`. -/
theorem cycStepA (m : Nat) :
    Resolver.resolveGo Resolver.cycFs false (m + 2) [[], ['a']] 0 1 2 [] =
      match Resolver.resolveGo Resolver.cycFs false m [[], ['b']] 0 1 2 [] with
      | none => none
      | some (Except.error e) => some (Except.error e)
      | some (Except.ok (ino2, fname2)) =>
        Resolver.resolveGo Resolver.cycFs false m [] 2 1 ino2 fname2 := rfl

/-- One unfolding of the resolver on the cycle, `/b` side. -/
theorem cycStepB (m : Nat) :
    Resolver.resolveGo Resolver.cycFs false (m + 2) [[], ['b']] 0 1 2 [] =
      match Resolver.resolveGo Resolver.cycFs false m [[], ['a']] 0 1 2 [] with
      | none => none
      | some (Except.error e) => some (Except.error e)
      | some (Except.ok (ino2, fname2)) =>
        Resolver.resolveGo Resolver.cycFs false m [] 2 1 ino2 fname2 := rfl

/-- The cyclic resolution never finishes at any recursion depth. -/
theorem cyc_none : ∀ n,
    Resolver.resolveGo Resolver.cycFs false n [[], ['a']] 0 1 2 [] = none ∧
    Resolver.resolveGo Resolver.cycFs false n [[], ['b']] 0 1 2 [] = none := by
  intro n
  induction n using Nat.strong_induction_on with
  | _ n ih =>
    match n with
    | 0 => exact ⟨rfl, rfl⟩
    | 1 => exact ⟨rfl, rfl⟩
    | m + 2 =>
      have hm := ih m (by omega)
      constructor
      · rw [cycStepA m, hm.2]
      · rw [cycStepB m, hm.1]

/-- C5 (amended): `resolve_relative` has no symlink-expansion budget at
all — on the two-symlink cycle `/a → /b → /a` the resolution of `"/a"`
does not complete within any recursion depth `n` (the Rust code recurses
until the stack overflows); in particular it never fails with
`InvalidInput`, after 40 follows or ever. -/
theorem C5_no_symlink_budget (n : Nat) :
    Resolver.resolve Resolver.cycFs n ['/', 'a'] = none :=
  (cyc_none n).1

/-- Counterexample for C5 as stated: with recursion depth 1000 — far past
the claimed 40-expansion budget — resolving `"/a"` over the cycle has not
produced the claimed `InvalidInput` failure (nor any result at all). -/
theorem C5_counterexample :
    Resolver.resolve Resolver.cycFs 1000 ['/', 'a'] ≠
      some (Except.error Err.invalidInput) ∧
    Resolver.resolve Resolver.cycFs 1000 ['/', 'a'] = none := by
  have h : Resolver.resolve Resolver.cycFs 1000 ['/', 'a'] = none := (cyc_none 1000).1
  exact ⟨by simp [h], h⟩

/-- C6: when the path already resolves to an existing object
(`is_exist = true`), both `mk_dir` and `new_file` return `FileExists` and
leave the filesystem state — in particular the device — untouched, so the
state reached by one successful `mkdir(p)` is unchanged by any number of
further `mkdir(p)` calls. -/
theorem C6_create_on_existing {σ : Type} (ops : Facade.FacadeOps σ) (s : σ)
    (path : List Char) (perm : Nat) (h : ops.isExist s path = true) :
    Facade.mk_dir ops s path perm = (Except.error Err.fileExists, s) ∧
    Facade.new_file ops s path perm = (Except.error Err.fileExists, s) ∧
    ∀ n, Facade.mkDirIter ops path perm s n = s := by
  have hnd : ∀ b, Facade.new_dir_entry ops s path perm b =
      (Except.error Err.fileExists, s) := by
    intro b
    simp [Facade.new_dir_entry, h]
  have hmk : Facade.mk_dir ops s path perm = (Except.error Err.fileExists, s) := by
    simp [Facade.mk_dir, hnd false]
  refine ⟨hmk, by simp [Facade.new_file, hnd true], ?_⟩
  intro n
  induction n with
  | zero => rfl
  | succ n ih =>
    show (Facade.mk_dir ops (Facade.mkDirIter ops path perm s n) path perm).2 = s
    rw [ih, hmk]

/-- Witness for C6 over the concrete `Nat`-state facade where every path
exists. -/
theorem C6_create_on_existing_witness :
    Facade.mk_dir Fix.c6Ops 5 ['/', 'x'] 0 = (Except.error Err.fileExists, 5) ∧
    Facade.new_file Fix.c6Ops 5 ['/', 'x'] 0 = (Except.error Err.fileExists, 5) ∧
    ∀ n, Facade.mkDirIter Fix.c6Ops ['/', 'x'] 0 5 n = 5 :=
  C6_create_on_existing Fix.c6Ops 5 ['/', 'x'] 0 rfl

/-- C2 (code divergence): on a consistent two-group image whose group 0 is
out of inodes and whose group 1 is fully free, `alloc_inode_num` serves the
request from group 1 and returns the *local* ordinal 9.  The bitmap
write-back `set_inode_bitmap(inum, ..)` then targets the group of that
local ordinal — group `(9-1)/8192 = 0` — so the chosen group 1's on-disk
bitmap is left unchanged (no bit of it is set), group 0's full bitmap is
overwritten with group 1's nearly-empty one, and only group 1's descriptor
counter is decremented: afterwards group 1's bitmap popcount (0) is not
`inodes_per_group − bg_free_inodes_count = 8192 − 8191 = 1`, refuting the
claimed invariant. -/
theorem C2_alloc_counter_divergence :
    (Alloc.alloc_inode_num Fix.c2State).1 = some 9 ∧
    (Alloc.alloc_inode_num Fix.c2State).2.inodeBitmaps.getD 1 [] =
      List.replicate 1024 0 ∧
    (Alloc.alloc_inode_num Fix.c2State).2.inodeBitmaps.getD 0 [] =
      (List.replicate 1024 0).set 1 1 ∧
    (Alloc.alloc_inode_num Fix.c2State).2.bgFreeInodes = [0, 8191] := by
  have h255 : ∀ n, Alloc.findNonFull (List.replicate n 255) = none := by
    intro n
    induction n with
    | zero => rfl
    | succ n ih => simp [List.replicate_succ, Alloc.findNonFull, ih]
  have hg0 : Alloc.alloc_inode_num_group Fix.c2State 0 = (none, Fix.c2State) := by
    have hb : (Fix.c2State.inodeBitmaps.getD 0 []).drop 1 =
        List.replicate 1023 255 := by
      show (List.replicate 1024 255).drop 1 = _
      rw [List.drop_replicate]
    simp only [Alloc.alloc_inode_num_group, hb, h255 1023]
  have hg1 : Alloc.alloc_inode_num_group Fix.c2State 1 =
      (some 9,
        { inodesPerGroup := 8192
          groupCount := 2
          inodeBitmaps := [(List.replicate 1024 0).set 1 1, List.replicate 1024 0]
          bgFreeInodes := [0, 8191]
          sbFreeInodes := 8191 }) := rfl
  have estep : ∀ (s : Alloc.InodeAllocState) (g n : Nat),
      Alloc.alloc_inode_from s g (n + 1) =
        match Alloc.alloc_inode_num_group s g with
        | (some inum, s1) => (some inum, s1)
        | (none, s1) => Alloc.alloc_inode_from s1 (g + 1) n :=
    fun _ _ _ => rfl
  have h2 : Alloc.alloc_inode_from Fix.c2State 0 (1 + 1) =
      Alloc.alloc_inode_from Fix.c2State 1 1 := by
    rw [estep, hg0]
  have h3 : Alloc.alloc_inode_from Fix.c2State 1 (0 + 1) =
      (some 9,
        { inodesPerGroup := 8192
          groupCount := 2
          inodeBitmaps := [(List.replicate 1024 0).set 1 1, List.replicate 1024 0]
          bgFreeInodes := [0, 8191]
          sbFreeInodes := 8191 }) := by
    rw [estep, hg1]
  have hfrom : Alloc.alloc_inode_num Fix.c2State =
      (some 9,
        { inodesPerGroup := 8192
          groupCount := 2
          inodeBitmaps := [(List.replicate 1024 0).set 1 1, List.replicate 1024 0]
          bgFreeInodes := [0, 8191]
          sbFreeInodes := 8191 }) := by
    show Alloc.alloc_inode_from Fix.c2State 0 Fix.c2State.groupCount = _
    have hgc : Alloc.alloc_inode_from Fix.c2State 0 Fix.c2State.groupCount =
        Alloc.alloc_inode_from Fix.c2State 0 (1 + 1) := rfl
    rw [hgc, h2]
    exact h3
  rw [hfrom]
  exact ⟨rfl, rfl, rfl, rfl⟩

/-- Reading an index a `List.set` did not touch is unchanged. -/
theorem getD_set_ne (l : List Nat) (i j v : Nat) (h : i ≠ j) :
    (l.set i v).getD j 0 = l.getD j 0 := by
  rw [List.getD_eq_getElem?_getD, List.getD_eq_getElem?_getD, List.getElem?_set_ne h]


/-- A successful `write_block` never changes an `i_block` slot at index 12
or above. -/
theorem write_block_iblock_high (s : FileH.FileState) (a b : Nat)
    (c : List Nat) (s2 : FileH.FileState) (m : Nat)
    (h : FileH.write_block s a b c = some (s2, m)) :
    ∀ j, 12 ≤ j → s2.iblock.getD j 0 = s.iblock.getD j 0 := by
  intro j hj
  by_cases ha : a < 12
  · have haj : a ≠ j := by omega
    by_cases hz : s.iblock[a]?.getD 0 = 0
    · cases hsup : s.allocSupply with
      | nil =>
        cases hB : s.blocks[a]? with
        | none =>
          have hv : FileH.write_block s a b c = none := by
            simp [FileH.write_block, ha, hz, hsup, hB]
          rw [hv] at h
          cases h
        | some v =>
          have hv : FileH.write_block s a b c = some (s, c.length) := by
            simp [FileH.write_block, ha, hz, hsup, hB]
          rw [hv] at h
          injection h with hp
          injection hp with h1 h2
          rw [← h1]
      | cons nb rest =>
        cases hB : (s.blocks ++ [nb])[a]? with
        | none =>
          have hv : FileH.write_block s a b c = none := by
            simp [FileH.write_block, ha, hz, hsup, hB]
          rw [hv] at h
          cases h
        | some v =>
          have hv : FileH.write_block s a b c =
              some ({ s with
                blocks := s.blocks ++ [nb]
                iblock := s.iblock.set a nb
                iBlocksCnt := s.iBlocksCnt + 1
                dataBlocksCount := s.dataBlocksCount + 1
                allocSupply := rest }, c.length) := by
            simp [FileH.write_block, ha, hz, hsup, hB]
          rw [hv] at h
          injection h with hp
          injection hp with h1 h2
          rw [← h1]
          exact getD_set_ne _ _ _ _ haj
    · cases hB : s.blocks[a]? with
      | none =>
        have hv : FileH.write_block s a b c = none := by
          simp [FileH.write_block, ha, hz, hB]
        rw [hv] at h
        cases h
      | some v =>
        have hv : FileH.write_block s a b c = some (s, c.length) := by
          simp [FileH.write_block, ha, hz, hB]
        rw [hv] at h
        injection h with hp
        injection hp with h1 h2
        rw [← h1]
  · have hv : FileH.write_block s a b c = none := by
      simp [FileH.write_block, ha]
    rw [hv] at h
    cases h

/-- The chunk loop of `FsFile::write` never changes an `i_block` slot at
index 12 or above. -/
theorem fileWriteGo_iblock_high (total : Nat) :
    ∀ fuel (s : FileH.FileState) (buffer : List Nat) (written : Nat)
      (s1 : FileH.FileState) (n : Nat),
      FileH.fileWriteGo total fuel s buffer written = some (Except.ok (s1, n)) →
      ∀ j, 12 ≤ j → s1.iblock.getD j 0 = s.iblock.getD j 0 := by
  intro fuel
  induction fuel with
  | zero =>
    intro s buffer written s1 n h
    exact absurd h (by simp [FileH.fileWriteGo])
  | succ k ih =>
    intro s buffer written s1 n h j hj
    simp only [FileH.fileWriteGo] at h
    cases hwb : FileH.write_block s (s.pos / s.blockSize) (s.pos % s.blockSize)
        (buffer.take s.blockSize) with
    | none =>
      rw [hwb] at h
      cases h
    | some r =>
      obtain ⟨s2, m⟩ := r
      rw [hwb] at h
      replace h : (if written + m = total then
          some (Except.ok ({ s2 with pos := s2.pos + m }, written + m))
        else FileH.fileWriteGo total k { s2 with pos := s2.pos + m }
          (buffer.drop s.blockSize) (written + m)) = some (Except.ok (s1, n)) := h
      have hpres := write_block_iblock_high s _ _ _ s2 m hwb j hj
      by_cases hdone : written + m = total
      · rw [if_pos hdone] at h
        injection h with h1
        injection h1 with h2
        injection h2 with h3 h4
        rw [← h3]
        exact hpres
      · rw [if_neg hdone] at h
        have hstep := ih { s2 with pos := s2.pos + m } (buffer.drop s.blockSize)
          (written + m) s1 n h j hj
        rw [hstep]
        exact hpres

/-- C7 (amended): a write whose cursor sits at or past `12 * block_size`
aborts with the failed `assert!(file_block_num < EXT2_NDIR_BLOCKS)` — a
panic, not an `InvalidInput` error — and a write that does succeed never
touches any `i_block` slot beyond the 12 direct ones. -/
theorem C7_write_direct_only (s : FileH.FileState) (buf : List Nat)
    (hbs : 0 < s.blockSize) :
    (12 * s.blockSize ≤ s.pos → FileH.fileWrite s buf = none) ∧
    (∀ s1 n, FileH.fileWrite s buf = some (Except.ok (s1, n)) →
      ∀ j, 12 ≤ j → s1.iblock.getD j 0 = s.iblock.getD j 0) := by
  constructor
  · intro hpos
    have h12 : ¬ s.pos / s.blockSize < 12 := by
      have : 12 ≤ s.pos / s.blockSize := (Nat.le_div_iff_mul_le hbs).mpr hpos
      omega
    have hv : FileH.write_block s (s.pos / s.blockSize) (s.pos % s.blockSize)
        (buf.take s.blockSize) = none := by
      simp [FileH.write_block, h12]
    have hgo : FileH.fileWriteGo buf.length (buf.length + 1) s buf 0 = none := by
      simp only [FileH.fileWriteGo]
      rw [hv]
    simp only [FileH.fileWrite]
    rw [hgo]
  · intro s1 n h j hj
    simp only [FileH.fileWrite] at h
    cases hgo : FileH.fileWriteGo buf.length (buf.length + 1) s buf 0 with
    | none =>
      rw [hgo] at h
      cases h
    | some r =>
      cases r with
      | error e =>
        rw [hgo] at h
        cases h
      | ok p =>
        obtain ⟨s2, wb⟩ := p
        rw [hgo] at h
        injection h with h1
        injection h1 with h2
        injection h2 with h3 h4
        rw [← h3]
        exact fileWriteGo_iblock_high buf.length (buf.length + 1) s buf 0 s2 wb hgo j hj

/-- Witness for C7 (amended): a 1-byte write with the cursor at
`13 * 1024` panics. -/
theorem C7_write_direct_only_witness :
    FileH.fileWrite Fix.c7State2 [98] = none :=
  (C7_write_direct_only Fix.c7State2 [98] (by decide)).1 (by decide)

/-- Counterexample for C7 as stated: with the cursor at `12 * block_size`
on a 12-block file, a 1-byte write does not return `InvalidInput` — the
`assert!` in `write_block` aborts the process (modelled as `none`). -/
theorem C7_counterexample :
    FileH.fileWrite Fix.c7State [97] ≠ some (Except.error Err.invalidInput) ∧
    FileH.fileWrite Fix.c7State [97] = none := by
  have h : FileH.fileWrite Fix.c7State [97] = none := rfl
  exact ⟨by simp [h], h⟩

/-- C8 (amended): reads at or past EOF return 0 and zero-fill the caller's
buffer without moving the cursor; otherwise — provided the requested range
fits inside the cursor's block, `pos % block_size + len(buf) ≤ block_size`
(larger requests at a mid-block cursor make the copy slice overrun and
panic, see the counterexample) — `read` returns `min(len(buf), size - pos)`
bytes, fills the buffer from the single block containing the cursor, and
advances the cursor by the returned count. -/
theorem C8_read (disk : Nat → List Nat) (s : FileH.FileState) (bufLen : Nat)
    (hdisk : ∀ b, (disk b).length = s.blockSize)
    (hfit : s.pos % s.blockSize + bufLen ≤ s.blockSize)
    (hblocks : s.pos / s.blockSize < s.blocks.length) :
    (s.size ≤ s.pos →
      FileH.fileRead disk s bufLen = some (List.replicate bufLen 0, 0, s)) ∧
    (s.pos < s.size →
      FileH.fileRead disk s bufLen =
        some (((disk (s.blocks.getD (s.pos / s.blockSize) 0)).drop
            (s.pos % s.blockSize)).take bufLen,
          min bufLen (s.size - s.pos),
          { s with pos := s.pos + min bufLen (s.size - s.pos) })) := by
  constructor
  · intro hle
    have hge : s.pos ≥ s.size := hle
    simp [FileH.fileRead, hge]
  · intro hlt
    have hge : ¬ s.pos ≥ s.size := by omega
    have hr : FileH.how_many_bytes s bufLen = min bufLen (s.size - s.pos) := by
      simp only [FileH.how_many_bytes, Nat.min_def]
      split <;> split <;> omega
    have hbp : s.pos - s.pos / s.blockSize * s.blockSize = s.pos % s.blockSize := by
      have h5 := Nat.div_add_mod s.pos s.blockSize
      rw [Nat.mul_comm] at h5
      omega
    have hB : s.blocks.get? (s.pos / s.blockSize) =
        some (s.blocks.getD (s.pos / s.blockSize) 0) := by
      rw [List.get?_eq_getElem?, List.getD_eq_getElem?_getD,
        List.getElem?_eq_getElem hblocks]
      rfl
    set phys := s.blocks.getD (s.pos / s.blockSize) 0 with hphys
    set rb := min bufLen (s.size - s.pos) with hrb
    have hsplice : ∀ pad : List Nat,
        (((disk phys ++ pad).drop (s.pos % s.blockSize)).take bufLen) =
          ((disk phys).drop (s.pos % s.blockSize)).take bufLen := by
      intro pad
      rw [List.drop_append_eq_append_drop]
      have hlen : s.pos % s.blockSize ≤ (disk phys).length := by
        rw [hdisk phys]; omega
      have h0 : s.pos % s.blockSize - (disk phys).length = 0 := by omega
      rw [h0, List.drop_zero, List.take_append_eq_append_take]
      have h1 : bufLen - ((disk phys).drop (s.pos % s.blockSize)).length = 0 := by
        rw [List.length_drop, hdisk phys]
        omega
      rw [h1, List.take_zero, List.append_nil]
    have hfit1 : s.pos % s.blockSize + bufLen ≤ (disk phys).length := by
      rw [hdisk phys]; exact hfit
    simp only [FileH.fileRead, hr, hB]
    rw [if_neg hge]
    by_cases hpad : rb < bufLen
    · rw [if_pos hpad]
      have hlen2 : s.pos - s.pos / s.blockSize * s.blockSize + bufLen ≤
          (disk phys ++ List.replicate (bufLen - rb) 0).length := by
        rw [List.length_append, List.length_replicate, hbp, hdisk phys]
        omega
      rw [if_pos hlen2, hbp, hsplice]
    · rw [if_neg hpad]
      have hlen3 : s.pos - s.pos / s.blockSize * s.blockSize + bufLen ≤
          (disk phys).length := by
        rw [hbp]
        exact hfit1
      rw [if_pos hlen3, hbp]

/-- Witness for C8 (amended): a 32-byte read at mid-block cursor 512 of a
2048-byte file returns 32 bytes of the first block and advances the
cursor. -/
theorem C8_read_witness :
    FileH.fileRead Fix.c8Disk Fix.c8State 32 =
      some (((Fix.c8Disk (Fix.c8State.blocks.getD
          (Fix.c8State.pos / Fix.c8State.blockSize) 0)).drop
          (Fix.c8State.pos % Fix.c8State.blockSize)).take 32,
        min 32 (Fix.c8State.size - Fix.c8State.pos),
        { Fix.c8State with
          pos := Fix.c8State.pos + min 32 (Fix.c8State.size - Fix.c8State.pos) }) :=
  (C8_read Fix.c8Disk Fix.c8State 32
    (fun _ => by
      show (List.replicate 1024 7).length = 1024
      rw [List.length_replicate])
    (by decide) (by decide)).2 (by decide)

/-- Counterexample for C8 as stated: reading a full 1024-byte buffer with
the cursor mid-block (`pos = 512`) of a 2048-byte file does not return
`min(len(buf), size - cursor) = 1024` bytes — the copy
`buffer[block_pos..block_pos + buf.len()]` overruns the 1024-byte block
and panics (modelled as `none`). -/
theorem C8_counterexample :
    FileH.fileRead Fix.c8Disk Fix.c8State 1024 = none ∧
    ¬ ∃ content st, FileH.fileRead Fix.c8Disk Fix.c8State 1024 =
      some (content, 1024, st) := by
  have hge : ¬ Fix.c8State.pos ≥ Fix.c8State.size := by decide
  have hr : FileH.how_many_bytes Fix.c8State 1024 = 1024 := rfl
  have h1 : Fix.c8State.blocks.get? (Fix.c8State.pos / Fix.c8State.blockSize) =
      some 300 := rfl
  have hdl : (Fix.c8Disk 300).length = 1024 := by
    show (List.replicate 1024 7).length = 1024
    rw [List.length_replicate]
  have hnopad : ¬ ((1024 : Nat) < 1024) := by decide
  have hlen : ¬ (Fix.c8State.pos -
      Fix.c8State.pos / Fix.c8State.blockSize * Fix.c8State.blockSize + 1024 ≤
        (Fix.c8Disk 300).length) := by
    rw [hdl]
    decide
  have hmain : FileH.fileRead Fix.c8Disk Fix.c8State 1024 = none := by
    simp only [FileH.fileRead, hr, h1]
    rw [if_neg hge, if_neg hnopad, if_neg hlen]
  exact ⟨hmain, by simp [hmain]⟩

/-- A successful `write_block` changes neither the cached `size` nor the
inode's `i_size`, and returns the buffer length. -/
theorem write_block_size (s : FileH.FileState) (a b : Nat)
    (c : List Nat) (s2 : FileH.FileState) (m : Nat)
    (h : FileH.write_block s a b c = some (s2, m)) :
    s2.size = s.size ∧ s2.iSize = s.iSize ∧ m = c.length := by
  by_cases ha : a < 12
  · by_cases hz : s.iblock[a]?.getD 0 = 0
    · cases hsup : s.allocSupply with
      | nil =>
        cases hB : s.blocks[a]? with
        | none =>
          have hv : FileH.write_block s a b c = none := by
            simp [FileH.write_block, ha, hz, hsup, hB]
          rw [hv] at h
          cases h
        | some v =>
          have hv : FileH.write_block s a b c = some (s, c.length) := by
            simp [FileH.write_block, ha, hz, hsup, hB]
          rw [hv] at h
          injection h with hp
          injection hp with h1 h2
          rw [← h1, ← h2]
          exact ⟨rfl, rfl, rfl⟩
      | cons nb rest =>
        cases hB : (s.blocks ++ [nb])[a]? with
        | none =>
          have hv : FileH.write_block s a b c = none := by
            simp [FileH.write_block, ha, hz, hsup, hB]
          rw [hv] at h
          cases h
        | some v =>
          have hv : FileH.write_block s a b c =
              some ({ s with
                blocks := s.blocks ++ [nb]
                iblock := s.iblock.set a nb
                iBlocksCnt := s.iBlocksCnt + 1
                dataBlocksCount := s.dataBlocksCount + 1
                allocSupply := rest }, c.length) := by
            simp [FileH.write_block, ha, hz, hsup, hB]
          rw [hv] at h
          injection h with hp
          injection hp with h1 h2
          rw [← h1, ← h2]
          exact ⟨rfl, rfl, rfl⟩
    · cases hB : s.blocks[a]? with
      | none =>
        have hv : FileH.write_block s a b c = none := by
          simp [FileH.write_block, ha, hz, hB]
        rw [hv] at h
        cases h
      | some v =>
        have hv : FileH.write_block s a b c = some (s, c.length) := by
          simp [FileH.write_block, ha, hz, hB]
        rw [hv] at h
        injection h with hp
        injection hp with h1 h2
        rw [← h1, ← h2]
        exact ⟨rfl, rfl, rfl⟩
  · have hv : FileH.write_block s a b c = none := by
      simp [FileH.write_block, ha]
    rw [hv] at h
    cases h

/-- The chunk loop of `FsFile::write` returns the full requested count and
leaves `size`/`i_size` untouched (they move only in the epilogue). -/
theorem fileWriteGo_size (total : Nat) :
    ∀ fuel (s : FileH.FileState) (buffer : List Nat) (written : Nat)
      (s1 : FileH.FileState) (n : Nat),
      FileH.fileWriteGo total fuel s buffer written = some (Except.ok (s1, n)) →
      n = total ∧ s1.size = s.size ∧ s1.iSize = s.iSize := by
  intro fuel
  induction fuel with
  | zero =>
    intro s buffer written s1 n h
    exact absurd h (by simp [FileH.fileWriteGo])
  | succ k ih =>
    intro s buffer written s1 n h
    simp only [FileH.fileWriteGo] at h
    cases hwb : FileH.write_block s (s.pos / s.blockSize) (s.pos % s.blockSize)
        (buffer.take s.blockSize) with
    | none =>
      rw [hwb] at h
      cases h
    | some r =>
      obtain ⟨s2, m⟩ := r
      rw [hwb] at h
      replace h : (if written + m = total then
          some (Except.ok ({ s2 with pos := s2.pos + m }, written + m))
        else FileH.fileWriteGo total k { s2 with pos := s2.pos + m }
          (buffer.drop s.blockSize) (written + m)) = some (Except.ok (s1, n)) := h
      obtain ⟨hsz, hisz, hm⟩ := write_block_size s _ _ _ s2 m hwb
      by_cases hdone : written + m = total
      · rw [if_pos hdone] at h
        injection h with h1
        injection h1 with h2
        injection h2 with h3 h4
        refine ⟨by omega, ?_, ?_⟩
        · rw [← h3]
          exact hsz
        · rw [← h3]
          exact hisz
      · rw [if_neg hdone] at h
        obtain ⟨hn, hs, hi⟩ := ih { s2 with pos := s2.pos + m }
          (buffer.drop s.blockSize) (written + m) s1 n h
        exact ⟨hn, by rw [hs]; exact hsz, by rw [hi]; exact hisz⟩

/-- C10: inodes made by `new_file`/`new_dir` (through `new_dir_entry`) carry
`i_size = block_size` — never 0 — and the in-memory `size` of the fresh
handle is `block_size` too; `FsFile::write` adds the written byte count on
top, so a fresh file holds recorded size `block_size + n` after writing `n`
bytes from position 0. -/
theorem C10_initial_size :
    (∀ perm fb bs, (FileH.new_file_struct perm fb bs).i_size = bs ∧
      (FileH.new_dir_struct perm fb bs).i_size = bs ∧
      (FileH.freshFileState perm fb bs []).size = bs) ∧
    (∀ (s s1 : FileH.FileState) (buf : List Nat) (n : Nat),
      FileH.fileWrite s buf = some (Except.ok (s1, n)) →
      n = buf.length ∧ s1.size = s.size + buf.length ∧
        s1.iSize = (s.iSize + buf.length) % 2 ^ 32) ∧
    (∀ perm nb bs supply (buf : List Nat), nb ≠ 0 → buf.length ≤ bs →
      FileH.fileWrite (FileH.freshFileState perm nb bs supply) buf =
        some (Except.ok ({ FileH.freshFileState perm nb bs supply with
          pos := buf.length
          iSize := (bs + buf.length) % 2 ^ 32
          size := bs + buf.length }, buf.length))) := by
  refine ⟨fun perm fb bs => ⟨rfl, rfl, rfl⟩, ?_, ?_⟩
  · intro s s1 buf n h
    simp only [FileH.fileWrite] at h
    cases hgo : FileH.fileWriteGo buf.length (buf.length + 1) s buf 0 with
    | none =>
      rw [hgo] at h
      cases h
    | some r =>
      cases r with
      | error e =>
        rw [hgo] at h
        cases h
      | ok p =>
        obtain ⟨s2, wb⟩ := p
        rw [hgo] at h
        injection h with h1
        injection h1 with h2
        injection h2 with h3 h4
        obtain ⟨hn, hs, hi⟩ := fileWriteGo_size buf.length (buf.length + 1)
          s buf 0 s2 wb hgo
        refine ⟨by omega, ?_, ?_⟩
        · rw [← h3]
          show s2.size + wb = s.size + buf.length
          omega
        · rw [← h3]
          show (s2.iSize + wb) % 2 ^ 32 = (s.iSize + buf.length) % 2 ^ 32
          rw [hi, hn]
  · intro perm nb bs supply buf hnb hlen
    set F := FileH.freshFileState perm nb bs supply with hF
    have hdiv : F.pos / F.blockSize = 0 := Nat.zero_div _
    have hmod : F.pos % F.blockSize = 0 := Nat.zero_mod _
    have htake : buf.take F.blockSize = buf := List.take_of_length_le hlen
    have hslot : ¬ (F.iblock[0]?.getD 0 = 0) := by
      show ¬ ((((List.replicate 15 0).set 0 nb)[0]?).getD 0 = 0)
      have : (((List.replicate 15 0).set 0 nb)[0]?).getD 0 = nb := rfl
      rw [this]
      exact hnb
    have hB : F.blocks[0]? = some nb := rfl
    have hwb : FileH.write_block F 0 0 buf = some (F, buf.length) := by
      simp [FileH.write_block, hslot, hB]
    have hgo : FileH.fileWriteGo buf.length (buf.length + 1) F buf 0 =
        some (Except.ok ({ F with pos := buf.length }, buf.length)) := by
      simp only [FileH.fileWriteGo, hdiv, hmod, htake, hwb]
      rw [if_pos (Nat.zero_add buf.length)]
      have hp0 : F.pos + buf.length = buf.length := by
        show 0 + buf.length = buf.length
        omega
      rw [hp0, Nat.zero_add]
    simp only [FileH.fileWrite, hgo]
    rfl

/-- Witness for C10: writing 10 bytes to a fresh 1024-byte-block file makes
the recorded size `1024 + 10`. -/
theorem C10_initial_size_witness :
    FileH.fileWrite (FileH.freshFileState 420 77 1024 []) (List.replicate 10 97) =
      some (Except.ok ({ FileH.freshFileState 420 77 1024 [] with
        pos := (List.replicate 10 97).length
        iSize := (1024 + (List.replicate 10 97).length) % 2 ^ 32
        size := 1024 + (List.replicate 10 97).length },
        (List.replicate 10 97).length)) :=
  C10_initial_size.2.2 420 77 1024 [] (List.replicate 10 97) (by decide)
    (by rw [List.length_replicate]; omega)

/-- C9 (amended): directory-block iteration starts at offset 0, reads the
8-byte header, reads `name_len` name bytes, advances by `rec_len` and stops
at `block_size` — but a record with `inode_num = 0` is *not* skipped: the
unconditional `dir_entry.get_inode(fs)?` fails for inode 0 and aborts the
whole read with an error; on blocks where every visited record has a
nonzero readable inode, the produced entries are exactly those of the
spec's iteration (`readDirBlockSpec`). -/
theorem C9_dir_iteration :
    (∀ (inodeOk : Nat → Bool) (block : List Nat) (bs fuel off : Nat),
      inodeOk 0 = false → off < bs →
      (Dir.readDirEntryStruct block off).inode_num = 0 →
      Dir.read_dir_block inodeOk block bs (fuel + 1) off =
        some (Except.error Err.unexpectedEof)) ∧
    (∀ (inodeOk : Nat → Bool) (block : List Nat) (bs : Nat),
      inodeOk 0 = false →
      ∀ fuel off l,
        Dir.read_dir_block inodeOk block bs fuel off = some (Except.ok l) →
        Dir.readDirBlockSpec block bs fuel off = some l) := by
  constructor
  · intro inodeOk block bs fuel off h0 hlt hiz
    simp only [Dir.read_dir_block]
    rw [if_pos hlt, hiz, h0]
    simp
  · intro inodeOk block bs h0 fuel
    induction fuel with
    | zero =>
      intro off l h
      exact absurd h (by simp [Dir.read_dir_block])
    | succ k ih =>
      intro off l h
      by_cases hlt : off < bs
      · simp only [Dir.read_dir_block] at h
        rw [if_pos hlt] at h
        by_cases hok : inodeOk (Dir.readDirEntryStruct block off).inode_num = true
        · rw [if_pos hok] at h
          cases hrec : Dir.read_dir_block inodeOk block bs k
              (off + (Dir.readDirEntryStruct block off).rec_len) with
          | none =>
            rw [hrec] at h
            cases h
          | some r =>
            cases r with
            | error e2 =>
              rw [hrec] at h
              replace h : (some (Except.error e2) :
                  Option (Except Err (List Dir.DirEnt))) = some (Except.ok l) := h
              injection h with h1
              cases h1
            | ok rest =>
              rw [hrec] at h
              replace h : some (Except.ok
                  ({ name := (block.drop (off + 8)).take
                      (Dir.readDirEntryStruct block off).name_len,
                     inodeNum := (Dir.readDirEntryStruct block off).inode_num }
                    :: rest)) = some (Except.ok l) := h
              injection h with h1
              injection h1 with h2
              have hnz : ¬ (Dir.readDirEntryStruct block off).inode_num = 0 := by
                intro hzz
                rw [hzz, h0] at hok
                cases hok
              simp only [Dir.readDirBlockSpec]
              rw [if_pos hlt, if_neg hnz, ih _ _ hrec]
              rw [← h2]
        · rw [if_neg hok] at h
          injection h with h1
          cases h1
      · simp only [Dir.read_dir_block] at h
        rw [if_neg hlt] at h
        injection h with h1
        injection h1 with h2
        simp only [Dir.readDirBlockSpec]
        rw [if_neg hlt, ← h2]

/-- Witness for C9 (amended): on a fresh `.`/`..` directory block (no free
records) the code iteration succeeds and its entries agree with the spec
iteration. -/
theorem C9_dir_iteration_witness :
    Dir.readDirBlockSpec Fix.dotBlock 1024 200 0 =
      some [{ name := [46], inodeNum := 2 }, { name := [46, 46], inodeNum := 2 }] :=
  C9_dir_iteration.2 Fix.c9InodeOk Fix.dotBlock 1024 rfl 200 0
    [{ name := [46], inodeNum := 2 }, { name := [46, 46], inodeNum := 2 }] rfl

/-- Counterexample for C9 as stated: on a block whose first record is free
(`inode_num = 0`), `read_dir` does not skip it — the iteration aborts with
an error (the inode-0 fetch fails), while the spec's skipping iteration
would return the one live entry. -/
theorem C9_counterexample :
    Dir.read_dir_block Fix.c9InodeOk Fix.c9Block 1024 200 0 =
      some (Except.error Err.unexpectedEof) ∧
    Dir.readDirBlockSpec Fix.c9Block 1024 200 0 =
      some [{ name := [121], inodeNum := 12 }] ∧
    ∀ l, Dir.read_dir_block Fix.c9InodeOk Fix.c9Block 1024 200 0 ≠
      some (Except.ok l) := by
  refine ⟨rfl, rfl, ?_⟩
  intro l h
  rw [show Dir.read_dir_block Fix.c9InodeOk Fix.c9Block 1024 200 0 =
    some (Except.error Err.unexpectedEof) from rfl] at h
  injection h with h1
  cases h1

/-- What a successful bitmap scan means: the found byte is the first one
that is not `0xFF`. -/
theorem findNonFull_some (l : List Nat) :
    ∀ (j c : Nat), Alloc.findNonFull l = some (j, c) →
      j < l.length ∧ l.getD j 0 = c ∧ c ≠ 255 ∧ ∀ i, i < j → l.getD i 0 = 255 := by
  induction l with
  | nil => intro j c h; cases h
  | cons b rest ih =>
    intro j c h
    by_cases hb : b ≠ 255
    · rw [Alloc.findNonFull, if_pos hb] at h
      injection h with hp
      injection hp with h1 h2
      refine ⟨by rw [← h1]; simp, ?_, ?_, ?_⟩
      · rw [← h1, ← h2]
        rfl
      · rw [← h2]
        exact hb
      · intro i hi
        exact absurd hi (by omega)
    · rw [Alloc.findNonFull, if_neg hb] at h
      cases hfr : Alloc.findNonFull rest with
      | none =>
        rw [hfr] at h
        cases h
      | some p =>
        obtain ⟨j', c'⟩ := p
        rw [hfr] at h
        replace h : (some (j' + 1, c') : Option (Nat × Nat)) = some (j, c) := h
        injection h with hp
        injection hp with h1 h2
        obtain ⟨ha, hb', hc, hd⟩ := ih j' c' hfr
        refine ⟨by simp; omega, ?_, by rw [← h2]; exact hc, ?_⟩
        · rw [← h1, ← h2]
          exact hb'
        · intro i hi
          cases i with
          | zero => simpa using hb
          | succ i' =>
            have : i' < j' := by omega
            exact hd i' this

/-- Conversely, the scan finds the first non-`0xFF` byte. -/
theorem findNonFull_intro (l : List Nat) :
    ∀ (j : Nat), j < l.length → l.getD j 0 ≠ 255 →
      (∀ i, i < j → l.getD i 0 = 255) →
      Alloc.findNonFull l = some (j, l.getD j 0) := by
  induction l with
  | nil =>
    intro j hj
    simp at hj
  | cons b rest ih =>
    intro j hj hne hall
    cases j with
    | zero =>
      have hne' : b ≠ 255 := by simpa using hne
      rw [Alloc.findNonFull, if_pos hne']
      rfl
    | succ j' =>
      have hb : b = 255 := by
        have := hall 0 (by omega)
        simpa using this
      have hbne : ¬ b ≠ 255 := by simp [hb]
      rw [Alloc.findNonFull, if_neg hbne]
      have hrec : Alloc.findNonFull rest = some (j', rest.getD j' 0) := by
        refine ih j' (by simpa using hj) hne ?_
        intro i hi
        have := hall (i + 1) (by omega)
        simpa using this
      rw [hrec]
      rfl

/-- Byte `m / 8` of the prefix bitmap holds the partial byte
`2 ^ (m % 8) - 1`. -/
theorem byteOf_at_q (m : Nat) : Alloc.byteOf m (m / 8) = 2 ^ (m % 8) - 1 := by
  rw [Alloc.byteOf]
  by_cases h1 : 8 * (m / 8 + 1) ≤ m
  · exact absurd h1 (by omega)
  · rw [if_neg h1]
    by_cases h2 : m ≤ 8 * (m / 8)
    · rw [if_pos h2]
      have : m % 8 = 0 := by omega
      rw [this]
      rfl
    · rw [if_neg h2]
      have : m - 8 * (m / 8) = m % 8 := by omega
      rw [this]

/-- The partial byte is never `0xFF`. -/
theorem byteOf_at_q_ne (m : Nat) : Alloc.byteOf m (m / 8) ≠ 255 := by
  rw [byteOf_at_q]
  have hr : m % 8 < 8 := Nat.mod_lt m (by omega)
  set r := m % 8 with hrdef
  interval_cases r <;> decide

/-- Bytes strictly before `m / 8` in the prefix bitmap are `0xFF`. -/
theorem byteOf_below (m j : Nat) (h : j < m / 8) : Alloc.byteOf m j = 255 := by
  rw [Alloc.byteOf, if_pos (by omega)]

/-- Reading the prefix bitmap pointwise. -/
theorem getD_filledBitmap (m len j : Nat) (h : j < len) :
    (Alloc.filledBitmap m len).getD j 0 = Alloc.byteOf m j := by
  rw [Alloc.filledBitmap, List.getD_eq_getElem?_getD, List.getElem?_map]
  rw [List.getElem?_eq_getElem (by simpa using h), List.getElem_range]
  rfl

/-- The scan on the prefix bitmap finds byte `m / 8`. -/
theorem findNonFull_filled (m len : Nat) (hlt : m < 8 * len) :
    Alloc.findNonFull (Alloc.filledBitmap m len) =
      some (m / 8, 2 ^ (m % 8) - 1) := by
  have hq : m / 8 < len := by omega
  have h1 := findNonFull_intro (Alloc.filledBitmap m len) (m / 8)
    (by rw [Alloc.filledBitmap]; simpa using hq)
    (by rw [getD_filledBitmap m len _ hq]; exact byteOf_at_q_ne m)
    (fun i hi => by
      rw [getD_filledBitmap m len i (by omega)]
      exact byteOf_below m i hi)
  rw [h1, getD_filledBitmap m len _ hq, byteOf_at_q]

/-- The scan skipping byte 0 (the inode scan) on the prefix bitmap finds
dropped index `m / 8 - 1` when byte 0 is full (`8 ≤ m`). -/
theorem findNonFull_filled_drop (m len : Nat) (h8 : 8 ≤ m) (hlt : m < 8 * len) :
    Alloc.findNonFull ((Alloc.filledBitmap m len).drop 1) =
      some (m / 8 - 1, 2 ^ (m % 8) - 1) := by
  have hq1 : 1 ≤ m / 8 := by omega
  have hq : m / 8 < len := by omega
  have hlen : ((Alloc.filledBitmap m len).drop 1).length = len - 1 := by
    rw [List.length_drop, Alloc.filledBitmap]
    simp
  have hgd : ∀ i, i < len - 1 →
      ((Alloc.filledBitmap m len).drop 1).getD i 0 =
        (Alloc.filledBitmap m len).getD (i + 1) 0 := by
    intro i hi
    rw [List.getD_eq_getElem?_getD, List.getD_eq_getElem?_getD, List.getElem?_drop]
    rw [Nat.add_comm 1 i]
  have h1 := findNonFull_intro ((Alloc.filledBitmap m len).drop 1) (m / 8 - 1)
    (by rw [hlen]; omega)
    (by
      rw [hgd _ (by omega)]
      have he : m / 8 - 1 + 1 = m / 8 := by omega
      rw [he, getD_filledBitmap m len _ hq]
      exact byteOf_at_q_ne m)
    (fun i hi => by
      rw [hgd i (by omega), getD_filledBitmap m len (i + 1) (by omega)]
      exact byteOf_below m (i + 1) (by omega))
  rw [h1, hgd _ (by omega)]
  have he : m / 8 - 1 + 1 = m / 8 := by omega
  rw [he, getD_filledBitmap m len _ hq, byteOf_at_q]

/-- The trailing-ones loop on the partial byte `2^r - 1` counts `r`. -/
theorem trailingOnes_pow (r : Nat) (h : r < 8) :
    Alloc.trailingOnes 8 (2 ^ r - 1) = r := by
  interval_cases r <;> rfl

/-- A byte with its two lowest bits set keeps the loop running at least
twice. -/
theorem trailingOnes_ge_two (c : Nat) (h : c % 4 = 3) :
    2 ≤ Alloc.trailingOnes 8 c := by
  have h1 : c % 2 = 1 := by omega
  have h2 : c / 2 % 2 = 1 := by omega
  have e1 : Alloc.trailingOnes 8 c = Alloc.trailingOnes 7 (c / 2) + 1 := by
    show (if c % 2 = 1 then Alloc.trailingOnes 7 (c / 2) + 1 else 0) = _
    rw [if_pos h1]
  have e2 : Alloc.trailingOnes 7 (c / 2) =
      Alloc.trailingOnes 6 (c / 2 / 2) + 1 := by
    show (if c / 2 % 2 = 1 then Alloc.trailingOnes 6 (c / 2 / 2) + 1 else 0) = _
    rw [if_pos h2]
  omega

/-- Setting bit `r` of the partial byte `2^r - 1` closes it to
`2^(r+1) - 1`. -/
theorem lor_pow_sub_one (r : Nat) (h : r < 8) :
    (2 ^ r - 1) ||| (1 <<< r) = 2 ^ (r + 1) - 1 := by
  interval_cases r <;> decide

/-- Bytes other than `m / 8` of the prefix bitmap are unchanged by moving
from `m` to `m + 1` set bits. -/
theorem byteOf_stable (m j : Nat) (h : j ≠ m / 8) :
    Alloc.byteOf m j = Alloc.byteOf (m + 1) j := by
  rw [Alloc.byteOf, Alloc.byteOf]
  by_cases h1 : 8 * (j + 1) ≤ m
  · rw [if_pos h1, if_pos (by omega)]
  · rw [if_neg h1]
    by_cases h2 : m ≤ 8 * j
    · have h2' : m < 8 * j := by omega
      rw [if_pos h2, if_neg (by omega), if_pos (by omega)]
    · exact absurd rfl (by omega : j ≠ j)

/-- The partial byte of the prefix bitmap after `m + 1` set bits. -/
theorem byteOf_succ_at_q (m : Nat) :
    Alloc.byteOf (m + 1) (m / 8) = 2 ^ (m % 8 + 1) - 1 := by
  rw [Alloc.byteOf]
  by_cases h1 : 8 * (m / 8 + 1) ≤ m + 1
  · rw [if_pos h1]
    have : m % 8 = 7 := by omega
    rw [this]
    rfl
  · rw [if_neg h1, if_neg (by omega)]
    have : m + 1 - 8 * (m / 8) = m % 8 + 1 := by omega
    rw [this]

/-- Pointwise form of the prefix bitmap. -/
theorem filledBitmap_getElem (m len i : Nat) :
    (Alloc.filledBitmap m len)[i]? =
      if i < len then some (Alloc.byteOf m i) else none := by
  rw [Alloc.filledBitmap, List.getElem?_map]
  by_cases h : i < len
  · rw [if_pos h, List.getElem?_eq_getElem (by simpa using h), List.getElem_range]
    rfl
  · rw [if_neg h, List.getElem?_eq_none]
    · rfl
    · simpa using Nat.le_of_not_lt h

/-- Setting bit `m` (ordinal `m + 1`) of the prefix bitmap extends the
prefix by one. -/
theorem bitmap_set_bit_filled (m len : Nat) (hlt : m < 8 * len) :
    Alloc.bitmap_set_bit (Alloc.filledBitmap m len) (m + 1) =
      Alloc.filledBitmap (m + 1) len := by
  have hq : m / 8 < len := by omega
  have hr : m % 8 < 8 := Nat.mod_lt m (by omega)
  have hidx : (m + 1 - 1) / 8 = m / 8 := by omega
  have hbit : (m + 1 - 1) % 8 = m % 8 := by omega
  rw [Alloc.bitmap_set_bit]
  rw [hidx, hbit, getD_filledBitmap m len _ hq, byteOf_at_q, lor_pow_sub_one _ hr]
  refine List.ext_getElem? ?_
  intro i
  by_cases hiq : i = m / 8
  · rw [hiq, List.getElem?_set_eq_of_lt _ (by rw [Alloc.filledBitmap]; simpa using hq)]
    rw [filledBitmap_getElem, if_pos hq, byteOf_succ_at_q]
  · rw [List.getElem?_set_ne (fun he => hiq he.symm)]
    rw [filledBitmap_getElem, filledBitmap_getElem]
    by_cases hi : i < len
    · rw [if_pos hi, if_pos hi, byteOf_stable m i hiq]
    · rw [if_neg hi, if_neg hi]

/-- Dropping one byte shifts pointwise reads by one. -/
theorem getD_drop_one (l : List Nat) (i : Nat) :
    (l.drop 1).getD i 0 = l.getD (i + 1) 0 := by
  rw [List.getD_eq_getElem?_getD, List.getD_eq_getElem?_getD, List.getElem?_drop,
    Nat.add_comm]

/-- Bits below the prefix boundary read as set. -/
theorem bitmapBit_filled_lt (M len j : Nat) (hj : j < M) (hlt : M < 8 * len) :
    Alloc.bitmapBit (Alloc.filledBitmap M len) j = true := by
  have hq : j / 8 < len := by omega
  rw [Alloc.bitmapBit, getD_filledBitmap M len _ hq]
  have hr : j % 8 < 8 := Nat.mod_lt j (by omega)
  by_cases hcase : j / 8 < M / 8
  · rw [byteOf_below M _ hcase]
    have h255 : (255 : Nat) = 2 ^ 8 - 1 := by norm_num
    rw [h255, Nat.testBit_two_pow_sub_one]
    simpa using hr
  · have heq : j / 8 = M / 8 := by omega
    rw [heq, byteOf_at_q, Nat.testBit_two_pow_sub_one]
    have : j % 8 < M % 8 := by omega
    simpa using this
/-- The first bit past the prefix boundary reads as clear. -/
theorem bitmapBit_filled_at (M len : Nat) (hlt : M < 8 * len) :
    Alloc.bitmapBit (Alloc.filledBitmap M len) M = false := by
  have hq : M / 8 < len := by omega
  rw [Alloc.bitmapBit, getD_filledBitmap M len _ hq, byteOf_at_q,
    Nat.testBit_two_pow_sub_one]
  simp

/-- One-step equation of the group loop of `alloc_inode_num`. -/
theorem alloc_inode_from_succ_eq (s : Alloc.InodeAllocState) (g n : Nat) :
    Alloc.alloc_inode_from s g (n + 1) =
      match Alloc.alloc_inode_num_group s g with
      | (some inum, s1) => (some inum, s1)
      | (none, s1) => Alloc.alloc_inode_from s1 (g + 1) n := rfl

/-- On a single-group prefix bitmap, one inode allocation returns ordinal
`m + 1` and extends the prefix. -/
theorem inode_group_step (m len : Nat) (st : Alloc.InodeAllocState)
    (hbm : st.inodeBitmaps = [Alloc.filledBitmap m len])
    (h8 : 8 ≤ m) (hlt : m < 8 * len) (hipg : m < st.inodesPerGroup) :
    Alloc.alloc_inode_num_group st 0 =
      (some (m + 1),
        { st with
          inodeBitmaps := [Alloc.filledBitmap (m + 1) len]
          bgFreeInodes := st.bgFreeInodes.set 0
            (Alloc.group_free_dec (st.bgFreeInodes.getD 0 0))
          sbFreeInodes := Alloc.sb_free_dec st.sbFreeInodes }) := by
  have hb0 : st.inodeBitmaps.getD 0 [] = Alloc.filledBitmap m len := by
    rw [hbm]
    rfl
  have hfind : Alloc.findNonFull ((st.inodeBitmaps.getD 0 []).drop 1) =
      some (m / 8 - 1, 2 ^ (m % 8) - 1) := by
    rw [hb0]
    exact findNonFull_filled_drop m len h8 hlt
  simp only [Alloc.alloc_inode_num_group, hfind]
  have hro : m % 8 < 8 := Nat.mod_lt m (by omega)
  have hinum : 8 * (m / 8 - 1 + 1) + Alloc.trailingOnes 8 (2 ^ (m % 8) - 1) + 1 =
      m + 1 := by
    rw [trailingOnes_pow _ hro]
    omega
  rw [hinum]
  have hm1 : m + 1 - 1 = m := by omega
  have hwg : (m + 1 - 1) / st.inodesPerGroup = 0 := by
    rw [hm1]
    exact Nat.div_eq_of_lt hipg
  rw [hwg, hb0, bitmap_set_bit_filled m len hlt, hbm]
  rfl

/-- On a prefix bitmap, one block allocation returns ordinal `m + 1` and
extends the prefix. -/
theorem block_group_step (m len : Nat) (st : Alloc.BlockAllocState)
    (hbm : st.bitmap = Alloc.filledBitmap m len) (hlt : m < 8 * len) :
    Alloc.alloc_block_group st =
      (some (m + 1),
        { bitmap := Alloc.filledBitmap (m + 1) len
          bgFreeBlocks := Alloc.group_free_dec st.bgFreeBlocks
          sbFreeBlocks := Alloc.sb_free_dec st.sbFreeBlocks }) := by
  have hfind : Alloc.findNonFull st.bitmap = some (m / 8, 2 ^ (m % 8) - 1) := by
    rw [hbm]
    exact findNonFull_filled m len hlt
  simp only [Alloc.alloc_block_group, hfind]
  have hro : m % 8 < 8 := Nat.mod_lt m (by omega)
  have hinum : 8 * (m / 8) + Alloc.trailingOnes 8 (2 ^ (m % 8) - 1) + 1 = m + 1 := by
    rw [trailingOnes_pow _ hro]
    omega
  rw [hinum, hbm, bitmap_set_bit_filled m len hlt]

/-- The single-group inode-allocation iteration keeps a prefix bitmap. -/
theorem inode_iter_invariant (m len ipg bg sb : Nat) (h8 : 8 ≤ m) :
    ∀ k, m + k < 8 * len → m + k < ipg →
      (Alloc.iterInodeAlloc (Fix.freshInodeState m len ipg bg sb) k).inodeBitmaps =
        [Alloc.filledBitmap (m + k) len] ∧
      (Alloc.iterInodeAlloc (Fix.freshInodeState m len ipg bg sb) k).inodesPerGroup
        = ipg ∧
      (Alloc.iterInodeAlloc (Fix.freshInodeState m len ipg bg sb) k).groupCount
        = 1 := by
  intro k
  induction k with
  | zero => intro h1 h2; exact ⟨rfl, rfl, rfl⟩
  | succ k ih =>
    intro h1 h2
    obtain ⟨hbm, hipg, hgc⟩ := ih (by omega) (by omega)
    set st := Alloc.iterInodeAlloc (Fix.freshInodeState m len ipg bg sb) k with hst
    have hstep := inode_group_step (m + k) len st hbm (by omega)
      (by omega) (by rw [hipg]; omega)
    have hnum : Alloc.alloc_inode_num st =
        (some (m + k + 1),
          { st with
            inodeBitmaps := [Alloc.filledBitmap (m + k + 1) len]
            bgFreeInodes := st.bgFreeInodes.set 0
              (Alloc.group_free_dec (st.bgFreeInodes.getD 0 0))
            sbFreeInodes := Alloc.sb_free_dec st.sbFreeInodes }) := by
      have h0 : Alloc.alloc_inode_num st = Alloc.alloc_inode_from st 0 st.groupCount :=
        rfl
      rw [h0]
      nth_rewrite 1 [hgc]
      show Alloc.alloc_inode_from st 0 (0 + 1) = _
      rw [alloc_inode_from_succ_eq, hstep]
    show ((Alloc.alloc_inode_num st).2.inodeBitmaps = _) ∧
      ((Alloc.alloc_inode_num st).2.inodesPerGroup = _) ∧
      ((Alloc.alloc_inode_num st).2.groupCount = _)
    rw [hnum]
    exact ⟨rfl, by rw [← hipg], by rw [← hgc]⟩

/-- The single-group block-allocation iteration keeps a prefix bitmap. -/
theorem block_iter_invariant (m len bg sb : Nat) :
    ∀ k, m + k < 8 * len →
      (Alloc.iterBlockAlloc (Fix.freshBlockState m len bg sb) k).bitmap =
        Alloc.filledBitmap (m + k) len := by
  intro k
  induction k with
  | zero => intro h1; rfl
  | succ k ih =>
    intro h1
    have hbm := ih (by omega)
    set st := Alloc.iterBlockAlloc (Fix.freshBlockState m len bg sb) k with hst
    have hstep := block_group_step (m + k) len st hbm (by omega)
    have ha : m + (k + 1) = m + k + 1 := by omega
    rw [ha]
    show (Alloc.alloc_block_group st).2.bitmap = _
    rw [hstep]

/-- C4: (1) inode allocation never returns one of the reserved inode
numbers 1..10 of group 0 while the reserved bits for inodes 9 and 10 are
set, as the on-disk invariant demands (the scan itself skips byte 0, i.e.
inodes 1..8); (2) on a freshly made single-group image whose inode bitmap
has exactly the first `m` bits set (the reserved inodes; `first_ino =
m + 1`), the `k`-th `alloc_inode_num` call returns `first_ino + k =
m + k + 1`; (3) the `k`-th `alloc_block_group` call on a fresh prefix
block bitmap returns the first-fit ordinal `m + k + 1`, i.e. exactly the
lowest clear bit of the bitmap at the time of the call. -/
theorem C4_alloc_determinism :
    (∀ (s : Alloc.InodeAllocState) (g n : Nat),
        (s.inodeBitmaps.getD g []).getD 1 0 % 4 = 3 →
        (Alloc.alloc_inode_num_group s g).1 = some n → 11 ≤ n) ∧
    (∀ m len ipg bg sb k, 8 ≤ m → m + k < 8 * len → m + k < ipg →
        (Alloc.alloc_inode_num (Alloc.iterInodeAlloc
          (Fix.freshInodeState m len ipg bg sb) k)).1 = some (m + k + 1)) ∧
    (∀ m len bg sb k, m + k < 8 * len →
        (Alloc.alloc_block_group (Alloc.iterBlockAlloc
          (Fix.freshBlockState m len bg sb) k)).1 = some (m + k + 1) ∧
        Alloc.bitmapBit (Alloc.iterBlockAlloc
          (Fix.freshBlockState m len bg sb) k).bitmap (m + k) = false ∧
        ∀ j, j < m + k → Alloc.bitmapBit (Alloc.iterBlockAlloc
          (Fix.freshBlockState m len bg sb) k).bitmap j = true) := by
  refine ⟨?_, ?_, ?_⟩
  · intro s g n h3 hres
    cases hf : Alloc.findNonFull ((s.inodeBitmaps.getD g []).drop 1) with
    | none =>
      have : Alloc.alloc_inode_num_group s g = (none, s) := by
        simp only [Alloc.alloc_inode_num_group, hf]
      rw [this] at hres
      cases hres
    | some p =>
      obtain ⟨j, c⟩ := p
      have hval : (Alloc.alloc_inode_num_group s g).1 =
          some (8 * (j + 1) + Alloc.trailingOnes 8 c + 1) := by
        simp only [Alloc.alloc_inode_num_group, hf]
      rw [hval] at hres
      injection hres with hn
      obtain ⟨hjl, hgd, hc, hbelow⟩ := findNonFull_some _ _ _ hf
      cases j with
      | zero =>
        have hcv : c = (s.inodeBitmaps.getD g []).getD 1 0 := by
          rw [← hgd, getD_drop_one]
        have h2 : 2 ≤ Alloc.trailingOnes 8 c :=
          trailingOnes_ge_two c (by rw [hcv]; exact h3)
        omega
      | succ j' => omega
  · intro m len ipg bg sb k h8 hlen hipg
    obtain ⟨hbm, hipg', hgc⟩ :=
      inode_iter_invariant m len ipg bg sb h8 k hlen hipg
    set st := Alloc.iterInodeAlloc (Fix.freshInodeState m len ipg bg sb) k with hst
    have hstep := inode_group_step (m + k) len st hbm (by omega) hlen
      (by rw [hipg']; omega)
    have h0 : Alloc.alloc_inode_num st = Alloc.alloc_inode_from st 0 st.groupCount :=
      rfl
    rw [h0]
    nth_rewrite 1 [hgc]
    show (Alloc.alloc_inode_from st 0 (0 + 1)).1 = _
    rw [alloc_inode_from_succ_eq, hstep]
  · intro m len bg sb k hlen
    have hbm := block_iter_invariant m len bg sb k hlen
    set st := Alloc.iterBlockAlloc (Fix.freshBlockState m len bg sb) k with hst
    have hstep := block_group_step (m + k) len st hbm hlen
    refine ⟨by rw [hstep], ?_, ?_⟩
    · rw [hbm]
      exact bitmapBit_filled_at (m + k) len hlen
    · intro j hj
      rw [hbm]
      exact bitmapBit_filled_lt (m + k) len j hj hlen

/-- Witness for C4: on a fresh image with the 10 reserved inodes set
(`first_ino = 11`), the first allocation from group 0 yields 11, the
second call (`k = 1`) yields 12; block allocation with a 3-block metadata
prefix yields first-fit block ordinal 6 on its third call (`k = 2`). -/
theorem C4_alloc_determinism_witness :
    ((Fix.freshInodeState 10 128 1024 100 200).inodeBitmaps.getD 0 []).getD 1 0 % 4
        = 3 ∧
    11 ≤ 11 ∧
    (Alloc.alloc_inode_num (Alloc.iterInodeAlloc
      (Fix.freshInodeState 10 128 1024 100 200) 1)).1 = some 12 ∧
    (Alloc.alloc_block_group (Alloc.iterBlockAlloc
      (Fix.freshBlockState 3 128 5 7) 2)).1 = some 6 := by
  refine ⟨by decide, ?_, ?_, ?_⟩
  · exact C4_alloc_determinism.1 (Fix.freshInodeState 10 128 1024 100 200) 0 11
      (by decide) rfl
  · exact C4_alloc_determinism.2.1 10 128 1024 100 200 1 (by decide) (by decide)
      (by decide)
  · exact (C4_alloc_determinism.2.2 3 128 5 7 2 (by decide)).1

/-- Byte-range writes preserve the buffer length (writes in range). -/
theorem writeBytes_length : ∀ (bytes l : List Nat) (off : Nat),
    (Dir.writeBytes l off bytes).length = l.length := by
  intro bytes
  induction bytes with
  | nil => intro l off; rfl
  | cons b rest ih =>
    intro l off
    show (Dir.writeBytes (l.set off b) (off + 1) rest).length = l.length
    rw [ih, List.length_set]

/-- Bytes below the write window are untouched. -/
theorem writeBytes_getD_lt : ∀ (bytes l : List Nat) (off j : Nat), j < off →
    (Dir.writeBytes l off bytes).getD j 0 = l.getD j 0 := by
  intro bytes
  induction bytes with
  | nil => intro l off j _; rfl
  | cons b rest ih =>
    intro l off j hj
    show (Dir.writeBytes (l.set off b) (off + 1) rest).getD j 0 = l.getD j 0
    rw [ih _ _ _ (by omega)]
    exact getD_set_ne _ _ _ _ (by omega)

/-- Bytes inside the write window read back what was written. -/
theorem writeBytes_getD_in : ∀ (bytes l : List Nat) (off k : Nat),
    k < bytes.length → off + bytes.length ≤ l.length →
    (Dir.writeBytes l off bytes).getD (off + k) 0 = bytes.getD k 0 := by
  intro bytes
  induction bytes with
  | nil =>
    intro l off k hk
    simp at hk
  | cons b rest ih =>
    intro l off k hk hle
    cases k with
    | zero =>
      show (Dir.writeBytes (l.set off b) (off + 1) rest).getD off 0 = b
      rw [writeBytes_getD_lt rest (l.set off b) (off + 1) off (by omega)]
      rw [List.getD_eq_getElem?_getD,
        List.getElem?_set_eq_of_lt b (by simp at hle; omega)]
      rfl
    | succ k' =>
      show (Dir.writeBytes (l.set off b) (off + 1) rest).getD (off + (k' + 1)) 0 =
        rest.getD k' 0
      have ha : off + (k' + 1) = (off + 1) + k' := by omega
      rw [ha, ih (l.set off b) (off + 1) k' (by simp at hk; omega)
        (by rw [List.length_set]; simp at hle; omega)]

/-- Record parsing depends only on the 8 header bytes. -/
theorem parse_congr (A B : List Nat) (o : Nat)
    (h : ∀ t, t < 8 → A.getD (o + t) 0 = B.getD (o + t) 0) :
    Dir.readDirEntryStruct A o = Dir.readDirEntryStruct B o := by
  have h0 := h 0 (by omega)
  have h1 := h 1 (by omega)
  have h2 := h 2 (by omega)
  have h3 := h 3 (by omega)
  have h4 := h 4 (by omega)
  have h5 := h 5 (by omega)
  have h6 := h 6 (by omega)
  have h7 := h 7 (by omega)
  rw [Nat.add_zero] at h0
  simp only [Dir.readDirEntryStruct, Dir.leU32, Dir.leU16]
  rw [h0, show o + 1 = o + 1 from rfl]
  rw [h1, h2, h3]
  rw [show o + 4 + 1 = o + 5 from by omega, show o + 4 = o + 4 from rfl]
  rw [h4, h5, h6, h7]

/-- Little-endian recomposition of a `u16` from its two bytes. -/
theorem u16_recompose (n : Nat) :
    n % 256 + 256 * (n / 256 % 256) = n % 2 ^ 16 := by
  have d1 : n / 2 ^ 16 = n / 256 / 256 := by
    rw [Nat.div_div_eq_div_mul]
    norm_num
  have m1 := Nat.div_add_mod n 256
  have m2 := Nat.div_add_mod (n / 256) 256
  have m5 := Nat.div_add_mod n (2 ^ 16)
  rw [d1] at m5
  have p16 : (2 : Nat) ^ 16 = 65536 := by norm_num
  rw [p16] at m5 ⊢
  omega

/-- Little-endian recomposition of a `u32` from its four bytes. -/
theorem u32_recompose (n : Nat) :
    n % 256 + 256 * (n / 256 % 256) + 256 ^ 2 * (n / 256 ^ 2 % 256) +
      256 ^ 3 * (n / 256 ^ 3 % 256) = n % 2 ^ 32 := by
  have d1 : n / 256 ^ 2 = n / 256 / 256 := by
    rw [Nat.div_div_eq_div_mul]
    norm_num
  have d2 : n / 256 ^ 3 = n / 256 / 256 / 256 := by
    rw [Nat.div_div_eq_div_mul, Nat.div_div_eq_div_mul]
    norm_num
  have d3 : n / 2 ^ 32 = n / 256 / 256 / 256 / 256 := by
    rw [Nat.div_div_eq_div_mul, Nat.div_div_eq_div_mul, Nat.div_div_eq_div_mul]
    norm_num
  have m1 := Nat.div_add_mod n 256
  have m2 := Nat.div_add_mod (n / 256) 256
  have m3 := Nat.div_add_mod (n / 256 / 256) 256
  have m4 := Nat.div_add_mod (n / 256 / 256 / 256) 256
  have m5 := Nat.div_add_mod n (2 ^ 32)
  rw [d3] at m5
  rw [d1, d2]
  have p2 : (256 : Nat) ^ 2 = 65536 := by norm_num
  have p3 : (256 : Nat) ^ 3 = 16777216 := by norm_num
  have p32 : (2 : Nat) ^ 32 = 4294967296 := by norm_num
  rw [p2, p3, p32]
  rw [p32] at m5
  omega

/-- Parsing a freshly written header recovers its (truncated) fields. -/
theorem parse_writeBytes (l : List Nat) (off : Nat) (e : Dir.Ext2DirEntryStruct)
    (hle : off + 8 ≤ l.length) :
    Dir.readDirEntryStruct (Dir.writeBytes l off (Dir.dirEntryBytes e)) off =
      { inode_num := e.inode_num % 2 ^ 32
        rec_len := e.rec_len % 2 ^ 16
        name_len := e.name_len % 256
        file_type := e.file_type % 256 } := by
  have hlen : (Dir.dirEntryBytes e).length = 8 := rfl
  have hget : ∀ k, k < 8 →
      (Dir.writeBytes l off (Dir.dirEntryBytes e)).getD (off + k) 0 =
        (Dir.dirEntryBytes e).getD k 0 := by
    intro k hk
    exact writeBytes_getD_in (Dir.dirEntryBytes e) l off k (by rw [hlen]; omega)
      (by rw [hlen]; omega)
  have g0 := hget 0 (by omega)
  have g1 := hget 1 (by omega)
  have g2 := hget 2 (by omega)
  have g3 := hget 3 (by omega)
  have g4 := hget 4 (by omega)
  have g5 := hget 5 (by omega)
  have g6 := hget 6 (by omega)
  have g7 := hget 7 (by omega)
  rw [Nat.add_zero] at g0
  have b0 : (Dir.dirEntryBytes e).getD 0 0 = e.inode_num % 256 := rfl
  have b1 : (Dir.dirEntryBytes e).getD 1 0 = e.inode_num / 256 % 256 := rfl
  have b2 : (Dir.dirEntryBytes e).getD 2 0 = e.inode_num / 256 ^ 2 % 256 := rfl
  have b3 : (Dir.dirEntryBytes e).getD 3 0 = e.inode_num / 256 ^ 3 % 256 := rfl
  have b4 : (Dir.dirEntryBytes e).getD 4 0 = e.rec_len % 256 := rfl
  have b5 : (Dir.dirEntryBytes e).getD 5 0 = e.rec_len / 256 % 256 := rfl
  have b6 : (Dir.dirEntryBytes e).getD 6 0 = e.name_len % 256 := rfl
  have b7 : (Dir.dirEntryBytes e).getD 7 0 = e.file_type % 256 := rfl
  simp only [Dir.readDirEntryStruct, Dir.leU32, Dir.leU16]
  rw [g0, g1, g2, g3]
  rw [show off + 4 + 1 = off + 5 from by omega]
  rw [g4, g5, g6, g7]
  rw [b0, b1, b2, b3, b4, b5, b6, b7]
  simp only [Dir.Ext2DirEntryStruct.mk.injEq]
  exact ⟨u32_recompose e.inode_num, u16_recompose e.rec_len, trivial, trivial⟩

/-- A record chain only moves forward. -/
theorem chainTo_le (block : List Nat) :
    ∀ (f o t : Nat), Dir.chainTo block f o t = true → o ≤ t := by
  intro f
  induction f with
  | zero =>
    intro o t h
    have : o = t := by simpa [Dir.chainTo] using h
    omega
  | succ f' ih =>
    intro o t h
    rw [Dir.chainTo] at h
    rcases Bool.or_eq_true_iff.mp h with h1 | h2
    · have : o = t := by simpa using h1
      omega
    · obtain ⟨hrl, hch⟩ := Bool.and_eq_true_iff.mp h2
      have := ih _ _ hch
      omega

/-- C3 (amended): when `find_last_dir_entry` stops at offset `off` of a
directory block — at the first record with `align_up(8 + name_len, 4) <
rec_len` *or* `inode_num = 0` — `new_dir_entry` rewrites that record with
`rec_len = pack`, writes the new record at `off + pack` with `rec_len =
block_size - (off + pack)`, and the record walk of the resulting block ends
exactly at `block_size` (`Σ rec_len = block_size`, final record extending
to end-of-block).  `chainTo` certifies that `off` is reachable from offset
0 by records of `rec_len ≥ 8`, the shape every well-formed directory block
has. -/
theorem C3_splice (block : List Nat) (bs off newInum fileType : Nat)
    (name : List Nat) (fuel fc : Nat)
    (hlen : block.length = bs)
    (hfind : Dir.find_last_dir_entry block bs fuel 0 = some off)
    (hchain : Dir.chainTo block fc 0 off = true)
    (hinum : newInum < 2 ^ 32)
    (hft : fileType < 256)
    (hname : name.length < 256)
    (hin : (Dir.readDirEntryStruct block off).inode_num < 2 ^ 32)
    (hnl : (Dir.readDirEntryStruct block off).name_len < 256)
    (hfty : (Dir.readDirEntryStruct block off).file_type < 256)
    (hroom : off + Dir.align_up4 (8 + (Dir.readDirEntryStruct block off).name_len)
        + 8 + name.length ≤ bs)
    (hbs16 : bs < 2 ^ 16) :
    Dir.readDirEntryStruct
        (Dir.new_dir_entry_block block bs off newInum fileType name) off =
      { Dir.readDirEntryStruct block off with
        rec_len := Dir.align_up4 (8 + (Dir.readDirEntryStruct block off).name_len) } ∧
    Dir.readDirEntryStruct
        (Dir.new_dir_entry_block block bs off newInum fileType name)
        (off + Dir.align_up4 (8 + (Dir.readDirEntryStruct block off).name_len)) =
      { inode_num := newInum
        rec_len := bs - off -
          Dir.align_up4 (8 + (Dir.readDirEntryStruct block off).name_len)
        name_len := name.length
        file_type := fileType } ∧
    Dir.walkEnd (Dir.new_dir_entry_block block bs off newInum fileType name) bs
      (fc + 3) 0 = some bs := by
  have hpack8 : 8 ≤ Dir.align_up4 (8 + (Dir.readDirEntryStruct block off).name_len) := by
    rw [Dir.align_up4]
    omega
  have hpack16 :
      Dir.align_up4 (8 + (Dir.readDirEntryStruct block off).name_len) < 2 ^ 16 := by
    rw [Dir.align_up4]
    omega
  have hrecl16 : bs - off -
      Dir.align_up4 (8 + (Dir.readDirEntryStruct block off).name_len) < 2 ^ 16 := by
    omega
  have hnb : Dir.new_dir_entry_block block bs off newInum fileType name =
      Dir.writeBytes
        (Dir.writeBytes
          (Dir.writeBytes block off
            (Dir.dirEntryBytes
              { Dir.readDirEntryStruct block off with
                rec_len := Dir.align_up4
                  (8 + (Dir.readDirEntryStruct block off).name_len) }))
          (off + Dir.align_up4 (8 + (Dir.readDirEntryStruct block off).name_len))
          (Dir.dirEntryBytes
            { inode_num := newInum
              rec_len := bs - off -
                Dir.align_up4 (8 + (Dir.readDirEntryStruct block off).name_len)
              name_len := name.length
              file_type := fileType }))
        (off + Dir.align_up4 (8 + (Dir.readDirEntryStruct block off).name_len) + 8)
        name := rfl
  have hlen1 : (Dir.writeBytes block off
      (Dir.dirEntryBytes
        { Dir.readDirEntryStruct block off with
          rec_len := Dir.align_up4
            (8 + (Dir.readDirEntryStruct block off).name_len) })).length = bs := by
    rw [writeBytes_length, hlen]
  have hS1 : Dir.readDirEntryStruct
      (Dir.new_dir_entry_block block bs off newInum fileType name) off =
      { Dir.readDirEntryStruct block off with
        rec_len := Dir.align_up4
          (8 + (Dir.readDirEntryStruct block off).name_len) } := by
    rw [hnb]
    have s1a := parse_congr
      (Dir.writeBytes
        (Dir.writeBytes
          (Dir.writeBytes block off
            (Dir.dirEntryBytes
              { Dir.readDirEntryStruct block off with
                rec_len := Dir.align_up4
                  (8 + (Dir.readDirEntryStruct block off).name_len) }))
          (off + Dir.align_up4 (8 + (Dir.readDirEntryStruct block off).name_len))
          (Dir.dirEntryBytes
            { inode_num := newInum
              rec_len := bs - off -
                Dir.align_up4 (8 + (Dir.readDirEntryStruct block off).name_len)
              name_len := name.length
              file_type := fileType }))
        (off + Dir.align_up4 (8 + (Dir.readDirEntryStruct block off).name_len) + 8)
        name)
      (Dir.writeBytes block off
        (Dir.dirEntryBytes
          { Dir.readDirEntryStruct block off with
            rec_len := Dir.align_up4
              (8 + (Dir.readDirEntryStruct block off).name_len) })) off ?_
    · rw [s1a, parse_writeBytes block off _ (by omega)]
      show ({ inode_num := (Dir.readDirEntryStruct block off).inode_num % 2 ^ 32
              rec_len := Dir.align_up4
                (8 + (Dir.readDirEntryStruct block off).name_len) % 2 ^ 16
              name_len := (Dir.readDirEntryStruct block off).name_len % 256
              file_type := (Dir.readDirEntryStruct block off).file_type % 256 } :
          Dir.Ext2DirEntryStruct) = _
      rw [Nat.mod_eq_of_lt hin, Nat.mod_eq_of_lt hpack16, Nat.mod_eq_of_lt hnl,
        Nat.mod_eq_of_lt hfty]
    · intro t ht
      rw [writeBytes_getD_lt name _ _ (off + t) (by omega)]
      rw [writeBytes_getD_lt (Dir.dirEntryBytes _) _ _ (off + t) (by omega)]
  have hS2 : Dir.readDirEntryStruct
      (Dir.new_dir_entry_block block bs off newInum fileType name)
      (off + Dir.align_up4 (8 + (Dir.readDirEntryStruct block off).name_len)) =
      { inode_num := newInum
        rec_len := bs - off -
          Dir.align_up4 (8 + (Dir.readDirEntryStruct block off).name_len)
        name_len := name.length
        file_type := fileType } := by
    rw [hnb]
    have s2a := parse_congr
      (Dir.writeBytes
        (Dir.writeBytes
          (Dir.writeBytes block off
            (Dir.dirEntryBytes
              { Dir.readDirEntryStruct block off with
                rec_len := Dir.align_up4
                  (8 + (Dir.readDirEntryStruct block off).name_len) }))
          (off + Dir.align_up4 (8 + (Dir.readDirEntryStruct block off).name_len))
          (Dir.dirEntryBytes
            { inode_num := newInum
              rec_len := bs - off -
                Dir.align_up4 (8 + (Dir.readDirEntryStruct block off).name_len)
              name_len := name.length
              file_type := fileType }))
        (off + Dir.align_up4 (8 + (Dir.readDirEntryStruct block off).name_len) + 8)
        name)
      (Dir.writeBytes
        (Dir.writeBytes block off
          (Dir.dirEntryBytes
            { Dir.readDirEntryStruct block off with
              rec_len := Dir.align_up4
                (8 + (Dir.readDirEntryStruct block off).name_len) }))
        (off + Dir.align_up4 (8 + (Dir.readDirEntryStruct block off).name_len))
        (Dir.dirEntryBytes
          { inode_num := newInum
            rec_len := bs - off -
              Dir.align_up4 (8 + (Dir.readDirEntryStruct block off).name_len)
            name_len := name.length
            file_type := fileType }))
      (off + Dir.align_up4 (8 + (Dir.readDirEntryStruct block off).name_len)) ?_
    · rw [s2a, parse_writeBytes _ _ _ (by rw [hlen1]; omega)]
      show ({ inode_num := newInum % 2 ^ 32
              rec_len := (bs - off -
                Dir.align_up4 (8 + (Dir.readDirEntryStruct block off).name_len))
                  % 2 ^ 16
              name_len := name.length % 256
              file_type := fileType % 256 } : Dir.Ext2DirEntryStruct) = _
      rw [Nat.mod_eq_of_lt hinum, Nat.mod_eq_of_lt hrecl16, Nat.mod_eq_of_lt hname,
        Nat.mod_eq_of_lt hft]
    · intro t ht
      rw [writeBytes_getD_lt name _ _ _ (by omega)]
  refine ⟨hS1, hS2, ?_⟩
  have hW0 : ∀ f, Dir.walkEnd
      (Dir.new_dir_entry_block block bs off newInum fileType name) bs (f + 3) off =
      some bs := by
    intro f
    have hofflt : off < bs := by omega
    have hoplt : off +
        Dir.align_up4 (8 + (Dir.readDirEntryStruct block off).name_len) < bs := by
      omega
    have e1 : Dir.walkEnd
        (Dir.new_dir_entry_block block bs off newInum fileType name) bs (f + 3) off =
        Dir.walkEnd (Dir.new_dir_entry_block block bs off newInum fileType name) bs
          (f + 2) (off + Dir.align_up4
            (8 + (Dir.readDirEntryStruct block off).name_len)) := by
      show (if off < bs then
          Dir.walkEnd (Dir.new_dir_entry_block block bs off newInum fileType name) bs
            (f + 2) (off + (Dir.readDirEntryStruct
              (Dir.new_dir_entry_block block bs off newInum fileType name) off).rec_len)
        else some off) = _
      rw [if_pos hofflt, hS1]
    have e2 : Dir.walkEnd
        (Dir.new_dir_entry_block block bs off newInum fileType name) bs (f + 2)
        (off + Dir.align_up4 (8 + (Dir.readDirEntryStruct block off).name_len)) =
        Dir.walkEnd (Dir.new_dir_entry_block block bs off newInum fileType name) bs
          (f + 1) bs := by
      show (if off + Dir.align_up4 (8 + (Dir.readDirEntryStruct block off).name_len)
            < bs then
          Dir.walkEnd (Dir.new_dir_entry_block block bs off newInum fileType name) bs
            (f + 1)
            ((off + Dir.align_up4 (8 + (Dir.readDirEntryStruct block off).name_len)) +
              (Dir.readDirEntryStruct
                (Dir.new_dir_entry_block block bs off newInum fileType name)
                (off + Dir.align_up4
                  (8 + (Dir.readDirEntryStruct block off).name_len))).rec_len)
        else some (off + Dir.align_up4
          (8 + (Dir.readDirEntryStruct block off).name_len))) = _
      rw [if_pos hoplt, hS2]
      show Dir.walkEnd (Dir.new_dir_entry_block block bs off newInum fileType name) bs
          (f + 1)
          (off + Dir.align_up4 (8 + (Dir.readDirEntryStruct block off).name_len) +
            (bs - off -
              Dir.align_up4 (8 + (Dir.readDirEntryStruct block off).name_len))) = _
      have harith : off +
          Dir.align_up4 (8 + (Dir.readDirEntryStruct block off).name_len) +
          (bs - off -
            Dir.align_up4 (8 + (Dir.readDirEntryStruct block off).name_len)) = bs := by
        omega
      rw [harith]
    have e3 : Dir.walkEnd
        (Dir.new_dir_entry_block block bs off newInum fileType name) bs (f + 1) bs =
        some bs := by
      show (if bs < bs then
          Dir.walkEnd (Dir.new_dir_entry_block block bs off newInum fileType name) bs
            f (bs + (Dir.readDirEntryStruct
              (Dir.new_dir_entry_block block bs off newInum fileType name)
              bs).rec_len)
        else some bs) = some bs
      rw [if_neg (by omega)]
    rw [e1, e2, e3]
  have hW : ∀ fc2 o, Dir.chainTo block fc2 o off = true →
      Dir.walkEnd (Dir.new_dir_entry_block block bs off newInum fileType name) bs
        (fc2 + 3) o = some bs := by
    intro fc2
    induction fc2 with
    | zero =>
      intro o hch
      have ho : o = off := by simpa [Dir.chainTo] using hch
      rw [ho]
      exact hW0 0
    | succ f ih =>
      intro o hch
      rw [Dir.chainTo] at hch
      rcases Bool.or_eq_true_iff.mp hch with h1 | h2
      · have ho : o = off := by simpa using h1
        rw [ho]
        exact hW0 (f + 1)
      · obtain ⟨hrl8b, hchain2⟩ := Bool.and_eq_true_iff.mp h2
        have hrl8 : 8 ≤ (Dir.readDirEntryStruct block o).rec_len := by
          simpa using hrl8b
        have hle2 : o + (Dir.readDirEntryStruct block o).rec_len ≤ off :=
          chainTo_le block f _ _ hchain2
        have holt : o < bs := by omega
        have hparse : Dir.readDirEntryStruct
            (Dir.new_dir_entry_block block bs off newInum fileType name) o =
            Dir.readDirEntryStruct block o := by
          rw [hnb]
          refine parse_congr _ block o ?_
          intro t ht
          rw [writeBytes_getD_lt name _ _ _ (by omega)]
          rw [writeBytes_getD_lt (Dir.dirEntryBytes _) _ _ _ (by omega)]
          rw [writeBytes_getD_lt (Dir.dirEntryBytes _) block off (o + t) (by omega)]
        have estep : Dir.walkEnd
            (Dir.new_dir_entry_block block bs off newInum fileType name) bs
            (f + 1 + 3) o =
            if o < bs then
              Dir.walkEnd (Dir.new_dir_entry_block block bs off newInum fileType name)
                bs (f + 3) (o + (Dir.readDirEntryStruct
                  (Dir.new_dir_entry_block block bs off newInum fileType name)
                  o).rec_len)
            else some o := rfl
        rw [estep, if_pos holt, hparse]
        exact ih _ hchain2
  exact hW fc 0 hchain

/-- C3 counterexample: on a block holding a free record (`inode_num = 0`,
`rec_len = 12`, packed size 12) at offset 12 before the genuine slack record
at offset 24, the source locator `find_last_dir_entry` stops at 12 (its stop
condition is `entry_size < rec_len || inode_num == 0`), while the claim's
locator — first record with `pack < rec_len` only — would pick 24. -/
theorem C3_counterexample :
    Dir.find_last_dir_entry Fix.c3Block 1024 200 0 = some 12 ∧
    Dir.findSlackSpec Fix.c3Block 1024 200 0 = some 24 ∧ (12 : Nat) ≠ 24 :=
  ⟨rfl, rfl, by decide⟩

/-- C3 witness: splicing a 4-byte name into a fresh `.`/`..` block at the
offset `find_last_dir_entry` returns (12, the `..` record) leaves a block
whose records tile it exactly: the walk ends at 1024. -/
theorem C3_splice_witness :
    Dir.walkEnd
      (Dir.new_dir_entry_block Fix.dotBlock 1024 12 13 1 [116, 101, 115, 116])
      1024 (1 + 3) 0 = some 1024 :=
  (C3_splice Fix.dotBlock 1024 12 13 1 [116, 101, 115, 116] 200 1
    (by
      show (Dir.writeBytes (List.replicate 1024 0) 0
        [2, 0, 0, 0, 12, 0, 1, 2, 46, 0, 0, 0,
         2, 0, 0, 0, 244, 3, 2, 2, 46, 46]).length = 1024
      rw [writeBytes_length, List.length_replicate])
    rfl
    rfl
    (by decide)
    (by decide)
    (by decide)
    (by decide)
    (by decide)
    (by decide)
    (by decide)
    (by decide)).2.2
